import Mathlib

/-!
# Verification of the WatchApp2 core (caption resolution and quiz assembly)

A shallow embedding, in Lean 4, of the testable core of the WatchApp2
repository: video-id extraction and caption normalization (`captions.py`),
quiz assembly, windowing and the quiz turn state machine (`app.py`), and the
single-call quiz builder's validation (`llm_simple.py`).

Conventions of the embedding:
* Python strings are modelled as `List Char` (named `Str` below); string
  literals enter through `pystr`.
* Python floats are modelled as exact rationals `ℚ`; the arithmetic the code
  performs on timestamps (division by 1000, sums of products with 60/3600,
  comparison, subtraction) is exact on the values in scope, so no rounding
  behaviour is lost.
* Python dicts with a fixed key set are modelled as structures; a key read
  with `.get(k, default)` on a possibly-absent key is modelled by an `Option`
  field (or by the default value directly, noted at each site).
* Fallible library calls (JSON decoding, HTTP fetches) are modelled as
  `Option`-valued inputs: `none` is the exception/failure case.
-/

namespace WatchApp

/-- Python strings, modelled as lists of characters. -/
abbrev Str := List Char

/-- Embeds a Lean string literal as a `Str`. -/
def pystr (s : String) : Str := s.toList

/-- Python `str.isspace` / regex `\s` membership for the ASCII whitespace
characters (the only whitespace that occurs in the data in scope;
non-ASCII Unicode whitespace is not modelled). -/
def pyIsSpace (c : Char) : Bool :=
  c = ' ' || c = '\t' || c = '\n' || c = '\r' || c = '\x0b' || c = '\x0c'

/-- Python `s.lstrip()` (whitespace only). -/
def pyLStrip (s : Str) : Str := s.dropWhile pyIsSpace

/-- Python `s.rstrip()` (whitespace only). -/
def pyRStrip (s : Str) : Str := (s.reverse.dropWhile pyIsSpace).reverse

/-- Python `s.strip()` (whitespace only). -/
def pyStrip (s : Str) : Str := pyRStrip (pyLStrip s)

/-- Python `s.lstrip(chars)` / `s.rstrip(chars)` generalised: strip, from both
ends, the characters satisfying `p`.  Used for `path.strip("/")`. -/
def pyStripP (p : Char → Bool) (s : Str) : Str :=
  ((s.dropWhile p).reverse.dropWhile p).reverse

/-- `pat` is a prefix of `s` (Python `s.startswith(pat)`). -/
def strStarts : Str → Str → Bool
  | [], _ => true
  | _ :: _, [] => false
  | p :: ps, c :: cs => p = c && strStarts ps cs

/-- `pat` is a suffix of `s` (Python `s.endswith(pat)`). -/
def strEnds (pat s : Str) : Bool := strStarts pat.reverse s.reverse

/-- `pat` occurs inside `s` (Python `pat in s`). -/
def strHas (pat : Str) : Str → Bool
  | [] => strStarts pat []
  | s@(_ :: rest) => strStarts pat s || strHas pat rest

/-- Python `sep.join(parts)` for a one-character separator is a special case;
this is the general list intercalation used for `" ".join(...)`. -/
def joinWith (sep : Str) (parts : List Str) : Str :=
  (List.intersperse sep parts).flatten

/-- Python `s.split(c)` for a single-character separator `c`:
`"".split(c) = [""]`, separators at the ends produce empty pieces. -/
def splitChar (c : Char) : Str → List Str
  | [] => [[]]
  | x :: xs =>
    if x = c then [] :: splitChar c xs
    else
      match splitChar c xs with
      | piece :: more => (x :: piece) :: more
      | [] => [[x]]

/-- Decimal digits of a natural number (Python `str(n)` for `n : ℕ`). -/
def natStr (n : ℕ) : Str := Nat.toDigits 10 n

/-- Python `str(n)` for an integer. -/
def intStr (n : ℤ) : Str :=
  if n < 0 then '-' :: natStr n.natAbs else natStr n.natAbs

/-- Rendering of a float value inside an f-string (Python `f"{x}"`), for the
values that occur here: every timestamp interpolated by the code has been
rounded to one decimal place, so its exact rational value has a denominator
dividing 10 and Python prints it as `<int>.<tenths>` (with `.0` for whole
numbers).  Other denominators cannot arise at the call sites; they get a
fraction rendering as a placeholder. -/
def floatStr (x : ℚ) : Str :=
  if x.den = 1 then intStr x.num ++ pystr (".0")
  else if (x * 10).den = 1 then
    let n : ℤ := (x * 10).num
    (if n < 0 then pystr ("-") else []) ++
      natStr (n.natAbs / 10) ++ pystr (".") ++ natStr (n.natAbs % 10)
  else intStr x.num ++ pystr ("/") ++ intStr x.den

/-! ## Video-id extraction (`captions.py` `extract_video_id`, `_normalize_url`)

`urllib.parse.urlparse` is a standard-library collaborator; the model below
reproduces the parts the code exercises: scheme detection (a leading run of
scheme characters before the first `:`, starting with a letter), `//`-netloc
extraction (up to the next `/`, `?` or `#`), then fragment (`#`) and query
(`?`) splits in that order.  Not modelled (with no effect on the theorems
below, whose inputs never contain them): the percent and plus decoding in
`parse_qs`, and the `ValueError` on unbalanced brackets in a netloc. -/

/-- Splits at the first occurrence of `c`: returns the part strictly before it
and the rest beginning with `c` (or `[]` when absent). -/
def splitBeforeChar (c : Char) : Str → Str × Str
  | [] => ([], [])
  | x :: xs =>
    if x = c then ([], x :: xs)
    else
      ((splitBeforeChar c xs).1.cons x, (splitBeforeChar c xs).2)

/-- Lower-casing (Python `str.lower()`, ASCII range as used here). -/
def pyLower (s : Str) : Str := s.map Char.toLower

/-- `urllib.parse`'s scheme characters. -/
def schemeChar (c : Char) : Bool :=
  c.isAlpha || c.isDigit || c = '+' || c = '-' || c = '.'

/-- The scheme split of `urlparse`: when a valid scheme ends at the first `:`,
return it (lower-cased) and the remainder; otherwise no scheme. -/
def urlSplitScheme (s : Str) : Str × Str :=
  match splitBeforeChar ':' s with
  | (before, ':' :: after) =>
    if (!before.isEmpty &&
        (match before with | c :: _ => c.isAlpha | [] => false) &&
        before.all schemeChar) then
      (pyLower before, after)
    else ([], s)
  | _ => ([], s)

/-- The netloc split of `urlparse`: when the remainder starts with `//`, the
netloc runs to the next `/`, `?` or `#`. -/
def splitNetloc (s : Str) : Str × Str :=
  if strStarts (pystr ("//")) s then
    ((s.drop 2).takeWhile (fun c => ¬(c = '/' ∨ c = '?' ∨ c = '#')),
     (s.drop 2).dropWhile (fun c => ¬(c = '/' ∨ c = '?' ∨ c = '#')))
  else ([], s)

/-- Fragment split (`url.split('#', 1)`). -/
def splitFrag (s : Str) : Str × Str :=
  match splitBeforeChar '#' s with
  | (a, _ :: f) => (a, f)
  | (a, []) => (a, [])

/-- Query split (`url.split('?', 1)`). -/
def splitQuery (s : Str) : Str × Str :=
  match splitBeforeChar '?' s with
  | (a, _ :: q) => (a, q)
  | (a, []) => (a, [])

/-- The pieces of `urllib.parse.urlparse` the code reads. -/
structure UrlParts where
  scheme : Str
  netloc : Str
  path : Str
  query : Str
  fragment : Str
deriving DecidableEq, Inhabited

/-- Model of `urllib.parse.urlparse`: scheme, then netloc, then fragment,
then query, in the standard library's order. -/
def urlparse (s : Str) : UrlParts :=
  { scheme := (urlSplitScheme s).1
    netloc := (splitNetloc (urlSplitScheme s).2).1
    path := (splitQuery (splitFrag (splitNetloc (urlSplitScheme s).2).2).1).1
    query := (splitQuery (splitFrag (splitNetloc (urlSplitScheme s).2).2).1).2
    fragment := (splitFrag (splitNetloc (urlSplitScheme s).2).2).2 }

/-- The query pairs `urllib.parse.parse_qs` produces with its defaults
(`keep_blank_values=False`): split on `&`, skip empty pieces and pieces
without `=`, keep pairs whose value is non-empty.  Percent and plus decoding
are elided (see the section comment). -/
def qsPairs (query : Str) : List (Str × Str) :=
  (splitChar '&' query).filterMap (fun pair =>
    if pair = [] then none
    else
      match splitBeforeChar '=' pair with
      | (name, _ :: value) => if value ≠ [] then some (name, value) else none
      | (_, []) => none)

/-- `"v" in qs and qs["v"]` followed by `qs["v"][0]`: the first value bound to
key `v`, when one exists. -/
def getQsV (query : Str) : Option Str :=
  (((qsPairs query).filter (fun p => p.1 = pystr ("v"))).head?).map Prod.snd

/-- Python regex `\w` plus `-`, i.e. the class `[\w-]`, for the ASCII
characters YouTube ids consist of (non-ASCII word characters are not
modelled). -/
def wordChar (c : Char) : Bool := c.isAlphanum || c = '_' || c = '-'

/-- One alternative of the id regex at a fixed position: the literal `pat`
followed by exactly 11 `[\w-]` characters (the capture). -/
def tryPat (pat s : Str) : Option Str :=
  if strStarts pat s then
    if ((s.drop pat.length).take 11).length = 11 ∧
        ((s.drop pat.length).take 11).all wordChar then
      some ((s.drop pat.length).take 11)
    else none
  else none

/-- `re.search(r"(?:v=|youtu\.be/|shorts/)([\w-]{11})", url)`: leftmost
position wins; at each position the alternatives are tried in order. -/
def reSearchVID : Str → Option Str
  | [] => none
  | s@(_ :: rest) =>
    match tryPat (pystr ("v=")) s with
    | some r => some r
    | none =>
      match tryPat (pystr ("youtu.be/")) s with
      | some r => some r
      | none =>
        match tryPat (pystr ("shorts/")) s with
        | some r => some r
        | none => reSearchVID rest

/-- `captions.py` `extract_video_id(url)`: `youtu.be` hosts take the first
path component, `youtube.com` hosts take the `v` query parameter or the
second `/shorts/` path component, everything else falls back to the regex
search; each extraction is truncated to 11 characters.  (The `try/except`
around the urlparse block only fires on inputs the model's total `urlparse`
cannot raise on; the handler falls through to the same regex search.) -/
def extract_video_id (url : Str) : Option Str :=
  if url = [] then none
  else
    if strEnds (pystr ("youtu.be")) (urlparse url).netloc then
      some (((splitChar '/' (pyStripP (fun c => c = '/') (urlparse url).path)).headD []).take 11)
    else
      if strHas (pystr ("youtube.com")) (urlparse url).netloc then
        match getQsV (urlparse url).query with
        | some v => some (v.take 11)
        | none =>
          if strStarts (pystr ("/shorts/")) (urlparse url).path then
            some (((splitChar '/' (urlparse url).path).getD 2 []).take 11)
          else
            reSearchVID url
      else reSearchVID url

/-- `captions.py` `_normalize_url(url_or_id)`: strip; an 11-character
`[\w-]{11}` token becomes a canonical watch URL; anything mentioning
`youtube.com`/`youtu.be` passes through; otherwise extract an id (if the
extraction is non-empty — Python tests the string's truthiness) and
canonicalise it; else pass through. -/
def _normalize_url (url_or_id : Str) : Str :=
  if pyStrip url_or_id = [] then []
  else
    if (pyStrip url_or_id).length = 11 ∧ (pyStrip url_or_id).all wordChar then
      pystr ("https://www.youtube.com/watch?v=") ++ pyStrip url_or_id
    else
      if strHas (pystr ("youtube.com")) (pyStrip url_or_id) ∨
          strHas (pystr ("youtu.be")) (pyStrip url_or_id) then
        pyStrip url_or_id
      else
        match extract_video_id (pyStrip url_or_id) with
        | some v =>
          if v ≠ [] then pystr ("https://www.youtube.com/watch?v=") ++ v
          else pyStrip url_or_id
        | none => pyStrip url_or_id

/-! ## Transcript fragments (`captions.py` output, `app.py` input) -/

/-- One timestamped transcript fragment, the uniform shape produced by the
caption parsers: `{"start": float, "text": str}`.  The `duration` key is never
written by `captions.py`; `app.py` reads it with `line.get("duration", 0)`, so
it is modelled as a field defaulting to 0. -/
structure Caption where
  start : ℚ
  duration : ℚ := 0
  text : Str
deriving DecidableEq, Inhabited

/-- End time of a fragment as `chunk_by_time` computes it:
`line["start"] + line.get("duration", 0)`. -/
def capEnd (c : Caption) : ℚ := c.start + c.duration

/-- Value of a non-empty all-digit string (helper for the Python numeric
parsers). -/
def digitsNat (ds : Str) : ℕ :=
  ds.foldl (fun acc c => acc * 10 + (c.toNat - '0'.toNat)) 0

/-- Python `int(s)`: strip whitespace, optional sign, then decimal digits
(raising, i.e. `none`, otherwise; digit-group underscores are not modelled —
none occur in the timestamp strings in scope). -/
def pyInt (s : Str) : Option ℤ :=
  let t := pyStrip s
  let core : Str → Option ℤ := fun ds =>
    if ds ≠ [] ∧ ds.all (·.isDigit) then some (digitsNat ds : ℤ) else none
  match t with
  | '-' :: ds => (core ds).map (fun n => -n)
  | '+' :: ds => (core ds).map id
  | ds => core ds

/-- Python `float(s)` restricted to plain decimal forms
(`[+-]digits[.digits]`, `[+-].digits`, `[+-]digits.`): exponent notation and
`inf`/`nan` are not modelled — the generator timestamps in scope are plain
decimals.  `none` models the `ValueError`. -/
def pyFloat (s : Str) : Option ℚ :=
  let t := pyStrip s
  let signed : ℚ × Str :=
    match t with
    | '-' :: r => (-1, r)
    | '+' :: r => (1, r)
    | r => (1, r)
  match splitChar '.' signed.2 with
  | [ip] => if ip ≠ [] ∧ ip.all (·.isDigit) then some (signed.1 * digitsNat ip) else none
  | [ip, fp] =>
    if (ip ≠ [] ∨ fp ≠ []) ∧ ip.all (·.isDigit) ∧ fp.all (·.isDigit) then
      some (signed.1 * ((digitsNat ip : ℚ) + (digitsNat fp : ℚ) / 10 ^ fp.length))
    else none
  | _ => none

/-! ## json3 caption parsing (`captions.py` `_parse_json3`) -/

/-- One entry of a json3 event's `segs` array: a JSON object (whose `utf8`
key is read with default `""`, baked into the field), or any other JSON value
(skipped by the `isinstance(seg, dict)` check). -/
inductive Seg where
  | dictSeg (utf8 : Str)
  | nonDict
deriving DecidableEq, Inhabited

/-- One entry of the json3 `events` array.  `tStartMs` is read with
`ev.get("tStartMs", 0)` (`none` models the absent key); `segs` with
`ev.get("segs") or []` (an absent/null/empty value is the empty list). -/
structure Json3Event where
  tStartMs : Option ℚ := none
  segs : List Seg := []
deriving DecidableEq, Inhabited

/-- A decoded json3 caption document: `data.get("events") or []`. -/
structure Json3Doc where
  events : List Json3Event := []
deriving DecidableEq, Inhabited

/-- The per-seg step of `_parse_json3`: `u = seg.get("utf8", "").strip();
if u: parts.append(u)`. -/
def segText : Seg → Option Str
  | .dictSeg u => if pyStrip u = [] then none else some (pyStrip u)
  | .nonDict => none

/-- The `parts` list an event contributes. -/
def eventParts (ev : Json3Event) : List Str := ev.segs.filterMap segText

/-- `" ".join(parts).replace("\n", " ").strip()` for an event. -/
def eventText (ev : Json3Event) : Str :=
  pyStrip ((joinWith (pystr (" ")) (eventParts ev)).map
    (fun c => if c = '\n' then ' ' else c))

/-- The event loop of `_parse_json3`, with the Python `out` accumulator made
explicit: skip events with no parts, then skip events whose joined text is
empty, otherwise append `{"start": tStartMs / 1000.0, "text": text}`. -/
def json3Go : List Json3Event → List Caption → List Caption
  | [], out => out
  | ev :: rest, out =>
    if eventParts ev = [] then json3Go rest out
    else
      if eventText ev = [] then json3Go rest out
      else
        json3Go rest (out ++ [{ start := ev.tStartMs.getD 0 / 1000, duration := 0,
                                text := eventText ev }])

/-- `captions.py` `_parse_json3` applied to a decoded document (the
`json.JSONDecodeError → []` path lives at the call sites, where an undecodable
content is modelled by an absent document). -/
def _parse_json3 (doc : Json3Doc) : List Caption := json3Go doc.events []

/-- The declarative per-event outcome stated by the spec: an event whose
normalized text is empty is dropped; any other event yields the fragment
`{start := tStartMs / 1000, text}`. -/
def json3Keep (ev : Json3Event) : Option Caption :=
  if eventText ev = [] then none
  else some { start := ev.tStartMs.getD 0 / 1000, duration := 0, text := eventText ev }

/-- A concrete json3 document: a two-seg event, an event whose text is blank
after stripping, and an event without a `tStartMs` key. -/
def sampleDoc : Json3Doc :=
  { events :=
    [{ tStartMs := some 1500, segs := [.dictSeg (pystr ("Hello")), .nonDict] },
     { tStartMs := some 2500, segs := [.dictSeg (pystr ("  "))] },
     { tStartMs := none, segs := [.dictSeg (pystr ("World"))] }] }

/-- The first fragment `_parse_json3` produces from `sampleDoc`. -/
def json3Frag0 : Caption :=
  { start := 1500 / 1000, duration := 0, text := pystr ("Hello") }

/-! ## VTT/SRT parsing (`captions.py` `_parse_vtt_like`) -/

/-- `content.replace("\r\n", "\n")`. -/
def stripCRLF : Str → Str
  | [] => []
  | '\r' :: '\n' :: rest => '\n' :: stripCRLF rest
  | c :: rest => c :: stripCRLF rest

/-- `line.split(pat)[0]`: the part of the line before the first occurrence of
the (multi-character) separator, the whole line when absent. -/
def beforeSub (pat : Str) : Str → Str
  | [] => []
  | c :: rest => if strStarts pat (c :: rest) then [] else c :: beforeSub pat rest

/-- `captions.py` `_vtt_timestamp_to_seconds`: strip, `,` → `.`, split on
`:`; `h:m:s` and `m:s` forms via `int`/`int`/`float`, anything else (or any
parse failure) is 0. -/
def _vtt_timestamp_to_seconds (s : Str) : ℚ :=
  match splitChar ':' ((pyStrip s).map (fun c => if c = ',' then '.' else c)) with
  | [h, m, sec] =>
    match pyInt h, pyInt m, pyFloat sec with
    | some a, some b, some c => (a : ℚ) * 3600 + (b : ℚ) * 60 + c
    | _, _, _ => 0
  | [m, sec] =>
    match pyInt m, pyFloat sec with
    | some b, some c => (b : ℚ) * 60 + c
    | _, _ => 0
  | _ => 0

/-- The line loop of `_parse_vtt_like`: a stripped line containing `-->`
starts a cue; its start time is parsed from the part before `-->`, the
following non-blank lines (stripped, space-joined, stripped) form the text,
kept if non-empty; scanning resumes past the blank terminator. -/
def vttGo : List Str → List Caption
  | [] => []
  | l :: rest =>
    if strHas (pystr ("-->")) (pyStrip l) then
      (if pyStrip (joinWith (pystr (" "))
            ((rest.takeWhile (fun x => pyStrip x ≠ [])).map pyStrip)) ≠ [] then
        [{ start := _vtt_timestamp_to_seconds
              (pyStrip (beforeSub (pystr ("-->")) (pyStrip l))),
           duration := 0,
           text := pyStrip (joinWith (pystr (" "))
              ((rest.takeWhile (fun x => pyStrip x ≠ [])).map pyStrip)) }]
      else []) ++
        vttGo ((rest.drop (rest.takeWhile (fun x => pyStrip x ≠ [])).length).drop 1)
    else vttGo rest
termination_by l => l.length
decreasing_by
  · simp only [List.length_cons, List.length_drop]
    omega
  · simp only [List.length_cons]
    omega

/-- `captions.py` `_parse_vtt_like(content)`. -/
def _parse_vtt_like (content : Str) : List Caption :=
  vttGo (splitChar '\n' (stripCRLF content))

/-! ## Caption fetching (`captions.py` `fetch_captions`)

The network/extraction collaborators (`yt_dlp.YoutubeDL.extract_info`,
`urllib.request.urlopen`) are modelled as inputs: the extraction outcome is a
parameter, and subtitle downloading is a function from URL to an optional
content (`none` is a raised/fetch error).  A downloaded content carries both
views the code may take of it: the result of `json.loads` on it (`none` when
it is not a decodable json3 document) and its raw text. -/

/-- The preferred-language constant `PREFERRED`. -/
def PREFERRED : List Str :=
  [pystr ("en"), pystr ("en-US"), pystr ("lv"), pystr ("es"), pystr ("ru")]

/-- A subtitle-format dict as read by the code: `f.get("ext") or ""` and
`f.get("url")` (an absent/empty url is `[]`, which is falsy). -/
structure SubFormat where
  ext : Str := []
  url : Str := []
deriving DecidableEq, Inhabited

/-- An entry of a track's format list: a dict or some other JSON value
(skipped by the `isinstance(f, dict)` checks). -/
inductive FmtEntry where
  | fmtDict (f : SubFormat)
  | fmtOther
deriving DecidableEq, Inhabited

/-- An entry of `info["formats"]`: `language_preference` and `language` as the
code reads them (`f.get("language_preference")` equality-compared, and a
truthiness test on `f.get("language")`, absent/empty modelled as `[]`). -/
structure FormatInfo where
  language_preference : Option ℤ := none
  language : Str := []
deriving DecidableEq, Inhabited

/-- An entry of the `formats` list: dict or other. -/
inductive FInfoEntry where
  | dictF (f : FormatInfo)
  | otherF
deriving DecidableEq, Inhabited

/-- The slice of the yt-dlp info dict the code reads.  The caption dicts are
insertion-ordered association lists with unique keys, like Python dicts. -/
structure YInfo where
  formats : List FInfoEntry := []
  automatic_captions : List (Str × List FmtEntry) := []
  subtitles : List (Str × List FmtEntry) := []
deriving DecidableEq, Inhabited

/-- `tracks[lang] = v` on an insertion-ordered dict: replace in place, or
append a new key. -/
def dictSet (d : List (Str × List FmtEntry)) (k : Str) (v : List FmtEntry) :
    List (Str × List FmtEntry) :=
  match d with
  | [] => [(k, v)]
  | (k0, v0) :: rest => if k0 = k then (k0, v) :: rest else (k0, v0) :: dictSet rest k v

/-- `lang in tracks`. -/
def dictHasKey (d : List (Str × List FmtEntry)) (k : Str) : Bool :=
  d.any (fun p => p.1 = k)

/-- `captions.py` `_get_subtitle_tracks(info)`: automatic captions first (new
languages with a non-empty list), then manual subtitles override.  (A
non-list truthy subtitle value, which the code maps to `[]`, is not
modelled — tracks are lists here.) -/
def _get_subtitle_tracks (info : YInfo) : List (Str × List FmtEntry) :=
  info.subtitles.foldl
    (fun acc p => if p.2 ≠ [] then dictSet acc p.1 p.2 else acc)
    (info.automatic_captions.foldl
      (fun acc p =>
        if ¬dictHasKey acc p.1 ∧ p.2 ≠ [] then dictSet acc p.1 p.2 else acc)
      [])

/-- `captions.py` `_lang_matches(preferred, track_lang)`: compare the
lower-cased part before the first `-`. -/
def _lang_matches (preferred track_lang : Str) : Bool :=
  pyLower ((splitChar '-' preferred).headD []) =
    pyLower ((splitChar '-' track_lang).headD [])

/-- The first `formats` entry that is a dict with the given
`language_preference` and a truthy `language`. -/
def findByPref (fs : List FInfoEntry) (pref : ℤ) : Option Str :=
  fs.findSome? (fun e =>
    match e with
    | .dictF f =>
      if f.language_preference = some pref ∧ f.language ≠ [] then some f.language
      else none
    | .otherF => none)

/-- `captions.py` `get_video_primary_language(info)`: original-language
formats (preference 10) first, then default (5), then any format with a
language. -/
def get_video_primary_language (info : YInfo) : Option Str :=
  match findByPref info.formats 10 with
  | some l => some l
  | none =>
    match findByPref info.formats 5 with
    | some l => some l
    | none =>
      info.formats.findSome? (fun e =>
        match e with
        | .dictF f => if f.language ≠ [] then some f.language else none
        | .otherF => none)

/-- The preferred-language list `fetch_captions` settles on: the video's
primary language (when known and no explicit list is given) followed by the
non-matching entries of `PREFERRED`; else `PREFERRED`; an explicit list wins. -/
def preferredFor (info : YInfo) (preferred_languages : Option (List Str)) : List Str :=
  match preferred_languages with
  | some pl => pl
  | none =>
    match get_video_primary_language info with
    | some primary => primary :: PREFERRED.filter (fun p => ¬_lang_matches primary p)
    | none => PREFERRED

/-- A downloaded subtitle content: the `json.loads` view (`none` when the
text is not a decodable json3 document) and the raw text view. -/
structure SubContent where
  js : Option Json3Doc := none
  text : Str := []
deriving DecidableEq, Inhabited

/-- `pick_format(formats)` (nested in `fetch_captions`): first json3 dict
with a url, then the first vtt/srv3/srt dict with a url, then the leading
entry if it is a dict with a url. -/
def pick_format (formats : List FmtEntry) : Option SubFormat :=
  match formats.findSome? (fun e =>
    match e with
    | .fmtDict f =>
      if pyLower f.ext = pystr ("json3") ∧ f.url ≠ [] then some f else none
    | .fmtOther => none) with
  | some f => some f
  | none =>
    match formats.findSome? (fun e =>
      match e with
      | .fmtDict f =>
        if f.url ≠ [] ∧ (pyLower f.ext = pystr ("vtt") ∨ pyLower f.ext = pystr ("srv3") ∨
            pyLower f.ext = pystr ("srt")) then some f
        else none
      | .fmtOther => none) with
    | some f => some f
    | none =>
      match formats with
      | .fmtDict f :: _ => if f.url ≠ [] then some f else none
      | _ => none

/-- The per-track parse step of `fetch_captions`: json3 ext through
`_parse_json3` (a decode error yields `[]`), anything else through
`_parse_vtt_like`. -/
def parse_as (ext : Str) (content : SubContent) : List Caption :=
  if pyLower ext = pystr ("json3") then
    match content.js with
    | some d => _parse_json3 d
    | none => []
  else _parse_vtt_like content.text

/-- The preferred-language loop of `fetch_captions` (lines 226–244): for each
language, find the first matching track key, pick its format, fetch and
parse; a missing track, missing format/url, fetch error or empty parse moves
to the next language. -/
def tryLangs (tracks : List (Str × List FmtEntry))
    (fetch : Str → Option SubContent) : List Str → Option (List Caption × Str)
  | [] => none
  | lang :: restLangs =>
    match tracks.findSome? (fun p => if _lang_matches lang p.1 then some p else none) with
    | none => tryLangs tracks fetch restLangs
    | some (lang_key, formats) =>
      match pick_format formats with
      | none => tryLangs tracks fetch restLangs
      | some fmt =>
        if fmt.url = [] then tryLangs tracks fetch restLangs
        else
          match fetch fmt.url with
          | none => tryLangs tracks fetch restLangs
          | some content =>
            if parse_as fmt.ext content ≠ [] then
              some (parse_as fmt.ext content, lang_key)
            else tryLangs tracks fetch restLangs

/-- The fallback loop of `fetch_captions` (lines 247–261): the first track,
in dict order, whose picked format fetches and parses to a non-empty list. -/
def tryAllTracks (fetch : Str → Option SubContent) :
    List (Str × List FmtEntry) → Option (List Caption × Str)
  | [] => none
  | (lang_key, formats) :: rest =>
    match pick_format formats with
    | none => tryAllTracks fetch rest
    | some fmt =>
      if fmt.url = [] then tryAllTracks fetch rest
      else
        match fetch fmt.url with
        | none => tryAllTracks fetch rest
        | some content =>
          if parse_as fmt.ext content ≠ [] then
            some (parse_as fmt.ext content, lang_key)
          else tryAllTracks fetch rest

/-- `fetch_captions` downstream of a successful info extraction (lines
194–263): merge the track dicts (failing when empty), then the preferred
loop, then the any-track fallback, then `CaptionUnavailable`
(`RuntimeError("No captions found or accessible for this video.")`). -/
def fetch_captions_core (info : YInfo) (fetch : Str → Option SubContent)
    (preferred_languages : Option (List Str)) : Except Str (List Caption × Str) :=
  if _get_subtitle_tracks info = [] then
    .error (pystr ("No captions found or accessible for this video."))
  else
    match tryLangs (_get_subtitle_tracks info) fetch
        (preferredFor info preferred_languages) with
    | some r => .ok r
    | none =>
      match tryAllTracks fetch (_get_subtitle_tracks info) with
      | some r => .ok r
      | none => .error (pystr ("No captions found or accessible for this video."))

/-! ## The transient cookie file (`captions.py` `_get_cookies_file` and the
`try/finally` of `fetch_captions`)

The file system is modelled as the list of existing temp-file paths; the
environment's cookie variable is modelled by its three observable states. -/

/-- The observable states of `YOUTUBE_COOKIES_B64`: absent/blank, set but
undecodable (the `except` returns `None` before any file is created), or
decodable. -/
inductive CookieEnv where
  | unset
  | invalid
  | valid
deriving DecidableEq, Inhabited

/-- `_get_cookies_file()`: no env → no file; decode failure → no file (the
failure happens before `mkstemp`); success → a fresh temp path is created and
returned.  Returns the optional path and the updated file system. -/
def _get_cookies_file (env : CookieEnv) (freshPath : Str) (fs : List Str) :
    Option Str × List Str :=
  match env with
  | .unset => (none, fs)
  | .invalid => (none, fs)
  | .valid => (some freshPath, fs ++ [freshPath])

/-- `os.path.exists` + `os.remove` (the swallowed-exception variant the
`finally` block uses): the path is gone afterwards. -/
def fsRemove (fs : List Str) (p : Str) : List Str := fs.filter (fun q => q ≠ p)

/-- `fetch_captions` as a file-system transformer: normalize the URL (failing
before any file is created), create the cookie file if configured, run the
extraction under `try/finally` — the `finally` removes the cookie file on
every exit from the extraction, error or not — then the no-info check and the
pure track-selection core.  Returns the result together with the final file
system. -/
def fetch_captions_fs (env : CookieEnv) (freshPath : Str)
    (extract : Except Str (Option YInfo)) (fetch : Str → Option SubContent)
    (preferred_languages : Option (List Str)) (url_or_id : Str) (fs : List Str) :
    Except Str (List Caption × Str) × List Str :=
  if _normalize_url url_or_id = [] then
    (.error (pystr ("No YouTube URL or video ID provided.")), fs)
  else
    match _get_cookies_file env freshPath fs with
    | (cookieOpt, fs1) =>
      match (match cookieOpt with
             | some p => fsRemove fs1 p
             | none => fs1) with
      | fs2 =>
        match extract with
        | .error e => (.error (pystr ("yt-dlp failed: ") ++ e), fs2)
        | .ok none => (.error (pystr ("No video info returned.")), fs2)
        | .ok (some info) =>
          (fetch_captions_core info fetch preferred_languages, fs2)

/-! ## Windowing (`app.py` `chunk_by_time`) -/

/-- The loop body of `chunk_by_time`: `buf` is the open window's fragments (in
order), `start` the open window's start.  A window is flushed as soon as the
current fragment's end time is at least `window_sec` past `start`; the next
window starts at that end time minus `overlap_sec`.  A non-empty trailing
buffer is flushed as a final partial window. -/
def chunkGo (w o : ℚ) : List Caption → List Caption → ℚ → List (ℚ × List Caption)
  | [], buf, start => if buf = [] then [] else [(start, buf)]
  | line :: rest, buf, start =>
    let buf2 := buf ++ [line]
    let cur_end := capEnd line
    if w ≤ cur_end - start then
      (start, buf2) :: chunkGo w o rest [] (cur_end - o)
    else
      chunkGo w o rest buf2 start

/-- `app.py` `chunk_by_time(captions, window_sec=75, overlap_sec=0)`. -/
def chunk_by_time (captions : List Caption) (window_sec : ℚ := 75)
    (overlap_sec : ℚ := 0) : List (ℚ × List Caption) :=
  match captions with
  | [] => []
  | c0 :: _ => chunkGo window_sec overlap_sec captions [] c0.start

/-- Covered duration of a produced window: end time of its last fragment minus
the window's start (0 for an empty window, which never occurs in the output). -/
def windowCover (p : ℚ × List Caption) : ℚ :=
  (match p.2.getLast? with
   | some c => capEnd c
   | none => p.1) - p.1

/-- `maxEnd − firstStart` of a fragment list: the length of time the
fragments span (the first fragment's start is the minimum start for the
sorted transcripts the resolver produces). -/
def transcriptSpan : List Caption → ℚ
  | [] => 0
  | c0 :: rest => ((c0 :: rest).map capEnd).foldl max (capEnd c0) - c0.start

/-- `app.py` `chunk_text`: space-join of the fragment texts whose text is
non-empty after stripping. -/
def chunk_text (chunk : List Caption) : Str :=
  joinWith (pystr (" ")) ((chunk.filter (fun x => pyStrip x.text ≠ [])).map (·.text))

/-! ## Fallback question synthesis (`app.py` `fallback_questions`) -/

/-- A generator item as consumed by `build_qa`:
`{"question": str, "correct": str, "distractors": list[str]}`. -/
structure GItem where
  question : Str
  correct : Str
  distractors : List Str
deriving DecidableEq, Inhabited

/-- `re.split(r"[.!?]\s+", txt)`, with explicit fuel (one unit per character;
every step of the scan consumes at least one character, so `fuel = length`
suffices and the 0-fuel branch is unreachable from `reSplitSent`). -/
def sentSplitFuel : ℕ → Str → List Str
  | 0, _ => [[]]
  | _ + 1, [] => [[]]
  | fuel + 1, c :: rest =>
    if (c = '.' || c = '!' || c = '?') &&
        (match rest with | r :: _ => pyIsSpace r | [] => false) then
      [] :: sentSplitFuel fuel (rest.dropWhile pyIsSpace)
    else
      match sentSplitFuel fuel rest with
      | piece :: more => (c :: piece) :: more
      | [] => [[c]]

/-- `re.split(r"[.!?]\s+", txt)`: split on a sentence-final punctuation mark
followed by (maximal) whitespace; the delimiter is removed. -/
def reSplitSent (s : Str) : List Str := sentSplitFuel s.length s

/-- `app.py` `fallback_questions(txt, k=2)`: sentences longer than 12
characters after stripping, up to `k` of them, each turned into a
"What was mentioned here" question with three fixed generic distractors. -/
def fallback_questions (txt : Str) (k : ℕ := 2) : List GItem :=
  let sents := ((reSplitSent txt).map pyStrip).filter (fun s => 12 < s.length)
  (sents.take k).map (fun s =>
    { question := pystr ("What was mentioned here: \"") ++ s.take 70 ++ pystr ("...\"")
      correct := s
      distractors := [pystr ("Not mentioned"), pystr ("Something unrelated"),
                      pystr ("I'm not sure")] })

/-- The choice-list assembly of `build_qa` (line 89):
`choices = [it["correct"]] + list(it["distractors"])`. -/
def assembleChoices (it : GItem) : List Str := it.correct :: it.distractors

/-! ## Quiz state and turn state machine (`app.py`) -/

/-- One assembled quiz record, as stored in `state["qa"]`:
`{"start": ..., "q": ..., "a": ..., "choices": ...}`. -/
structure QA where
  start : ℚ
  q : Str
  a : Str
  choices : List Str
deriving DecidableEq, Inhabited

/-- The quiz state dict built by `build_qa` (the `previous_qs` key is never
read by the state machine and is omitted). -/
structure QuizState where
  video_id : Str
  lang_name : Str
  qa : List QA
  idx : ℕ
  score : ℕ
deriving DecidableEq, Inhabited

/-- `round(x, 1)` in Python: round to one decimal with ties to even
(banker's rounding), exact on rationals. -/
def pyRound1 (x : ℚ) : ℚ :=
  let y := x * 10
  let f : ℤ := ⌊y⌋
  let r := y - f
  (if r < 1/2 then (f : ℚ) else if 1/2 < r then (f : ℚ) + 1
   else if f % 2 = 0 then (f : ℚ) else (f : ℚ) + 1) / 10

/-- The question prompt `get_current_question` renders:
`f"Q{i + 1}: {item['q']}\n(From ~{item['start']}s)"`. -/
def questionPrompt (i : ℕ) (item : QA) : Str :=
  pystr ("Q") ++ natStr (i + 1) ++ pystr (": ") ++ item.q ++
    pystr ("\n(From ~") ++ floatStr item.start ++ pystr ("s)")

/-- The deterministic index-parity reordering `get_current_question` applies:
when the question index is odd and there are at least two choices, the first
two choices are swapped; otherwise the stored order is kept. -/
def reorderForIndex (i : ℕ) (cs : List Str) : List Str :=
  if i % 2 = 1 ∧ 2 ≤ cs.length then
    match cs with
    | c0 :: c1 :: rest => c1 :: c0 :: rest
    | l => l
  else cs

/-- `app.py` `get_current_question(state)`: `None` past the end, otherwise the
rendered prompt together with the (possibly parity-swapped) copy of the stored
choices.  The Python function only reads `state` (it copies the choice list
before swapping), so it is a pure function of the state. -/
def get_current_question (state : QuizState) : Option (Str × List Str) :=
  if state.idx < state.qa.length then
    let i := state.idx
    let item := state.qa.getD i default
    let ordered :=
      if i % 2 = 1 ∧ 2 ≤ item.choices.length then
        match item.choices with
        | c0 :: c1 :: rest => c1 :: c0 :: rest
        | l => l
      else item.choices
    some (questionPrompt i item, ordered)
  else none

/-- `app.py` `submit_answer(state, choice)` together with the session flag
`st.session_state['is_second_attempt']`, which the function reads and writes;
the flag is passed in and the updated flag is returned alongside the new state
and the feedback string.  Past the end of the quiz the call is a no-op that
reports completion. -/
def submit_answer (state : QuizState) (second_attempt : Bool) (choice : Str) :
    QuizState × Bool × Str :=
  if state.qa.length ≤ state.idx then (state, second_attempt, pystr ("Finished."))
  else
    let item := state.qa.getD state.idx default
    let is_correct := choice = item.a
    if second_attempt then
      ({ state with score := state.score + (if is_correct then 1 else 0),
                    idx := state.idx + 1 },
       false,
       if is_correct then pystr ("✅ Correct!")
       else pystr ("❌ Still incorrect, but moving on."))
    else if is_correct then
      ({ state with score := state.score + 1, idx := state.idx + 1 },
       second_attempt, pystr ("✅ Correct!"))
    else
      (state, true, pystr ("❌ Not quite.\n**Correct:** ") ++ item.a)

/-- A concrete one-question quiz state used to instantiate the state-machine
theorems. -/
def sampleQuiz : QuizState :=
  { video_id := pystr ("dQw4w9WgXcQ")
    lang_name := pystr ("English")
    qa := [{ start := 0, q := pystr ("q"), a := pystr ("A"),
             choices := [pystr ("A"), pystr ("B"), pystr ("C")] }]
    idx := 0
    score := 0 }

/-- The two-fragment transcript `[{start 0}, {start 300}]` (durations 0, as the
caption parsers produce): it spans 300 seconds but windows into a single
chunk. -/
def spanCaps : List Caption :=
  [{ start := 0, duration := 0, text := [] },
   { start := 300, duration := 0, text := [] }]

/-! ## Generator output validation (`llm_simple.py` and `llm_qgen.py`) -/

/-- An entry of a JSON `"distractors"` array: a string, or some other JSON
value (the code keeps only entries passing `isinstance(d, str)`). -/
inductive DVal where
  | strD (s : Str)
  | nonStr
deriving DecidableEq, Inhabited

/-- A JSON `"timestamp"` value: a number, or a string to be parsed
(`llm_simple.py` line 90). -/
inductive TsVal where
  | numT (x : ℚ)
  | strT (s : Str)
deriving DecidableEq, Inhabited

/-- A raw item of the JSON array returned by the single-call generator
(`llm_simple.py`).  Missing keys are read with `.get(k, default)`; the
defaults are baked into the fields. -/
structure RawItem where
  question : Str := []
  correct : Str := []
  distractors : List DVal := []
  timestamp : TsVal := .numT 0
deriving DecidableEq, Inhabited

/-- A validated question as built by `generate_quiz_from_transcript`. -/
structure QItem where
  question : Str
  correct : Str
  distractors : List Str
  timestamp : ℚ
deriving DecidableEq, Inhabited

/-- `llm_simple.py` `_parse_timestamp(ts)`: `"m:ss"` and `"h:mm:ss"` forms via
`int()` (brackets removed first), any other string via `float()`; every parse
failure is swallowed and becomes 0.  A `":"`-containing string that does not
split into 2 or 3 parts falls through to `float(ts)`, which raises on the
colon, hence 0. -/
def _parse_timestamp (ts : Str) : ℚ :=
  if strHas (pystr (":")) ts then
    let parts := splitChar ':' ((ts.filter (· ≠ '[')).filter (· ≠ ']'))
    match parts with
    | [a, b] =>
      match pyInt a, pyInt b with
      | some x, some y => ((x * 60 + y : ℤ) : ℚ)
      | _, _ => 0
    | [a, b, c] =>
      match pyInt a, pyInt b, pyInt c with
      | some x, some y, some z => ((x * 3600 + y * 60 + z : ℤ) : ℚ)
      | _, _, _ => 0
    | _ => 0
  else
    match pyFloat ts with
    | some v => v
    | none => 0

/-- Stable insertion into a list sorted by ascending timestamp (before any
strictly greater element, after equal ones). -/
def insertByTs (x : QItem) : List QItem → List QItem
  | [] => [x]
  | y :: ys => if x.timestamp ≤ y.timestamp then x :: y :: ys else y :: insertByTs x ys

/-- `questions.sort(key=lambda x: x["timestamp"])`: Python's sort is stable,
and a stable sort by a fixed key is extensionally unique, so this stable
insertion sort computes exactly the list Python's Timsort produces. -/
def sortByTs : List QItem → List QItem
  | [] => []
  | x :: xs => insertByTs x (sortByTs xs)

/-- The validation-and-sort core of `generate_quiz_from_transcript`
(`llm_simple.py` lines 82–105), applied to the decoded JSON array `data` (the
network call, fence stripping and JSON decoding upstream of it are external
collaborators): strip question and correct answer, keep string distractors
that are non-empty after stripping, parse string timestamps, keep items with
non-empty question and answer and at least 2 distractors (truncated to 3), and
sort the result by ascending timestamp. -/
def generate_quiz_validate (data : List RawItem) : List QItem :=
  let questions : List QItem := data.filterMap (fun item =>
    let q := pyStrip item.question
    let correct := pyStrip item.correct
    let distractors : List Str := item.distractors.filterMap (fun d =>
      match d with
      | .strD s => if pyStrip s = [] then none else some (pyStrip s)
      | .nonStr => none)
    let timestamp : ℚ :=
      match item.timestamp with
      | .numT x => x
      | .strT s => _parse_timestamp s
    if q ≠ [] ∧ correct ≠ [] ∧ 2 ≤ distractors.length then
      some { question := q, correct := correct,
             distractors := distractors.take 3, timestamp := timestamp }
    else none)
  sortByTs questions

/-- A raw item of the JSON array returned by the per-chunk generator
(`llm_qgen.py`); missing keys default as the `.get` calls do. -/
structure QRaw where
  question : Str := []
  correct : Str := []
  distractors : List DVal := []
deriving DecidableEq, Inhabited

/-- The validation of `llm_qgen.py` `generate_questions` (lines 77–87): strip
question and answer, keep the stripped form of every string distractor —
note: unlike `llm_simple.py`, empty-after-strip distractors are KEPT, only
`isinstance(d, str)` is checked — and keep items whose question, answer and
distractor list are non-empty. -/
def qgen_validate (data : List QRaw) : List GItem :=
  data.filterMap (fun item =>
    let q := pyStrip item.question
    let correct := pyStrip item.correct
    let distractors : List Str := item.distractors.filterMap (fun d =>
      match d with
      | .strD s => some (pyStrip s)
      | .nonStr => none)
    if q ≠ [] ∧ correct ≠ [] ∧ distractors ≠ [] then
      some { question := q, correct := correct, distractors := distractors }
    else none)

/-- `llm_qgen.py` `generate_questions` downstream of the LLM transport: the
argument is the JSON-decoded response (`none` models a decode error, which the
`except` turns into `[]`; an empty validated list also returns `[]` via the
raised-and-caught `ValueError`). -/
def generate_questions (parsed : Option (List QRaw)) : List GItem :=
  match parsed with
  | none => []
  | some data => qgen_validate data

/-! ## Quiz assembly (`app.py` `build_qa`, lines 73–99) -/

/-- The inner loop of `build_qa` over one chunk's generated items: dedup by
exact stripped question string, then append the record with choices
`[correct] + distractors` (the stored answer `a` is the unstripped
`it["correct"]`, the stored question the stripped one).  The accumulator is
`(qa, seen, previous_questions)`. -/
def addItems (start : ℚ) :
    List GItem → List QA × List Str × List Str → List QA × List Str × List Str
  | [], acc => acc
  | it :: rest, (qa, seen, prev) =>
    let q := pyStrip it.question
    if q = [] ∨ q ∈ seen then addItems start rest (qa, seen, prev)
    else
      addItems start rest
        (qa ++ [{ start := pyRound1 start, q := q, a := it.correct,
                  choices := assembleChoices it }],
         seen ++ [q], prev ++ [q])

/-- `items = generate_questions(...) or fallback`: `build_qa` line 83–84 —
when the generation capability returns nothing, synthesize locally. -/
def genOrFallback (items0 : List GItem) (txt : Str) : List GItem :=
  if items0 = [] then fallback_questions txt 2 else items0

/-- The chunk loop of `build_qa`: skip chunks whose concatenated text is empty
or shorter than 60 characters, call the generation capability (with the
running previous-question list), fall back to `fallback_questions txt 2` when
it returns nothing, accumulate, and stop accepting chunks once 20 questions
are reached. -/
def build_qa_chunks (gen : Str → List Str → List GItem) :
    List (ℚ × List Caption) → List QA × List Str × List Str → List QA
  | [], (qa, _, _) => qa
  | (start, ch) :: rest, (qa, seen, prev) =>
    if chunk_text ch = [] ∨ (chunk_text ch).length < 60 then
      build_qa_chunks gen rest (qa, seen, prev)
    else
      if 20 ≤ (addItems start (genOrFallback (gen (chunk_text ch) prev) (chunk_text ch))
          (qa, seen, prev)).1.length then
        (addItems start (genOrFallback (gen (chunk_text ch) prev) (chunk_text ch))
          (qa, seen, prev)).1
      else
        build_qa_chunks gen rest
          (addItems start (genOrFallback (gen (chunk_text ch) prev) (chunk_text ch))
            (qa, seen, prev))

/-- The question-list assembly of `build_qa` downstream of caption fetching:
first 8 chunks, empty accumulators, then the chunk loop. -/
def build_qa_core (chunks : List (ℚ × List Caption))
    (gen : Str → List Str → List GItem) : List QA :=
  build_qa_chunks gen (chunks.take 8) ([], [], [])

/-- The single-fragment chunk (60+ characters of text) used by the C3
counterexample and witnesses. -/
def longChunk : List Caption :=
  [{ start := 0, duration := 0,
     text := pystr ("The quick brown fox jumps over the lazy dog near the riverbank today") }]

/-- A generator response with one item carrying a single distractor: it passes
the `llm_qgen.py` validation (which only requires a non-empty distractor
list). -/
def oneDistractorResponse : List QRaw :=
  [{ question := pystr ("Q1?"), correct := pystr ("AnswerA"),
     distractors := [.strD (pystr ("B"))] }]

/-- The negative-timestamp generator item used by the C2 counterexample. -/
def negItem : RawItem :=
  { question := pystr ("Q"), correct := pystr ("A"),
    distractors := [.strD (pystr ("B")), .strD (pystr ("C"))],
    timestamp := .numT (-5) }

/-- The shape of the choice list of assembled quiz records: the (unstripped)
correct answer sits at index 0 and at least one distractor follows. -/
def choicesWellFormed (x : QA) : Prop :=
  x.choices.head? = some x.a ∧ 2 ≤ x.choices.length

/-- A constant per-chunk generator returning `oneDistractorResponse`. -/
def c3gen : Str → List Str → Option (List QRaw) := fun _ _ => some oneDistractorResponse

/-- The single record `build_qa` assembles from `longChunk` under `c3gen`. -/
def c3qa : QA :=
  { start := pyRound1 0, q := pystr ("Q1?"), a := pystr ("AnswerA"),
    choices := [pystr ("AnswerA"), pystr ("B")] }

/-- A two-window transcript: an 80-second fragment closes the first window,
a trailing zero-duration fragment forms the final partial window. -/
def caps2 : List Caption :=
  [{ start := 0, duration := 80, text := [] },
   { start := 80, duration := 0, text := [] }]

/-! ## Theorems -/

theorem chunkGo_flatten (w o : ℚ) :
    ∀ (l buf : List Caption) (s : ℚ),
      ((chunkGo w o l buf s).map Prod.snd).flatten = buf ++ l := by
  intro l
  induction l with
  | nil =>
    intro buf s
    by_cases hb : buf = [] <;> simp [chunkGo, hb]
  | cons line rest ih =>
    intro buf s
    simp only [chunkGo]
    split
    · simp [ih]
    · simp [ih]

theorem chunkGo_starts_mono (w : ℚ) (hw : 0 ≤ w) :
    ∀ (l buf : List Caption) (s : ℚ),
      List.Pairwise (· ≤ ·) ((chunkGo w 0 l buf s).map Prod.fst) ∧
      ∀ x ∈ (chunkGo w 0 l buf s).map Prod.fst, s ≤ x := by
  intro l
  induction l with
  | nil =>
    intro buf s
    by_cases hb : buf = [] <;> simp [chunkGo, hb]
  | cons line rest ih =>
    intro buf s
    simp only [chunkGo]
    split
    · rename_i hclose
      obtain ⟨ihp, ihb⟩ := ih [] (capEnd line - 0)
      have hs : s ≤ capEnd line - 0 := by linarith
      constructor
      · simp only [List.map_cons]
        refine List.pairwise_cons.mpr ⟨?_, ihp⟩
        intro x hx
        have := ihb x hx
        linarith
      · intro x hx
        simp only [List.map_cons, List.mem_cons] at hx
        rcases hx with rfl | hx
        · exact le_refl _
        · have := ihb x hx
          linarith
    · exact ih (buf ++ [line]) s

theorem chunkGo_cover (w o : ℚ) :
    ∀ (l buf : List Caption) (s : ℚ),
      ∀ p ∈ (chunkGo w o l buf s).dropLast, w ≤ windowCover p := by
  intro l
  induction l with
  | nil =>
    intro buf s p hp
    by_cases hb : buf = [] <;> simp [chunkGo, hb] at hp
  | cons line rest ih =>
    intro buf s p hp
    simp only [chunkGo] at hp
    split at hp
    · rename_i hclose
      cases hws : chunkGo w o rest [] (capEnd line - o) with
      | nil => rw [hws] at hp; simp at hp
      | cons w1 ws' =>
        rw [hws, List.dropLast_cons₂, List.mem_cons] at hp
        rcases hp with rfl | hp
        · simp only [windowCover, List.getLast?_concat]
          linarith
        · rw [← hws] at hp
          exact ih [] (capEnd line - o) p hp
    · exact ih (buf ++ [line]) s p hp

/-- Claim C5 (amended): `chunk_by_time` with `window_seconds = 75` partitions
the fragment sequence with nothing left out, produces windows in non-decreasing
start order, and every non-final window's covered duration is at least 75
seconds.  (The original claim's "exactly 4 windows for a 300-second transcript"
is refuted by `chunk_by_time_span300_not_four`.) -/
theorem chunk_by_time_window_properties (captions : List Caption) :
    ((chunk_by_time captions 75 0).map Prod.snd).flatten = captions ∧
    List.Pairwise (· ≤ ·) ((chunk_by_time captions 75 0).map Prod.fst) ∧
    ∀ p ∈ (chunk_by_time captions 75 0).dropLast, 75 ≤ windowCover p := by
  cases captions with
  | nil => simp [chunk_by_time]
  | cons c rest =>
    exact ⟨chunkGo_flatten 75 0 (c :: rest) [] c.start,
           (chunkGo_starts_mono 75 (by norm_num) (c :: rest) [] c.start).1,
           chunkGo_cover 75 0 (c :: rest) [] c.start⟩

/-- Witness for C5 at the concrete transcript `caps2`, whose first (non-final)
window is closed by the 80-second fragment. -/
theorem chunk_by_time_window_properties_witness :
    ((chunk_by_time caps2 75 0).map Prod.snd).flatten = caps2 ∧
    List.Pairwise (· ≤ ·) ((chunk_by_time caps2 75 0).map Prod.fst) ∧
    (75 : ℚ) ≤ windowCover ((0 : ℚ), [{ start := 0, duration := 80, text := [] }]) :=
  ⟨(chunk_by_time_window_properties caps2).1,
   (chunk_by_time_window_properties caps2).2.1,
   (chunk_by_time_window_properties caps2).2.2
     ((0 : ℚ), [{ start := 0, duration := 80, text := [] }])
     (by norm_num [chunk_by_time, chunkGo, capEnd, caps2])⟩

/-- Counterexample to claim C5 as stated: a transcript of two zero-duration
fragments at 0 s and 300 s spans 300 seconds, yet windowing with
`window_seconds = 75` yields a single window, not exactly 4. -/
theorem chunk_by_time_span300_not_four :
    transcriptSpan spanCaps = 300 ∧ (chunk_by_time spanCaps 75 0).length = 1 := by
  constructor
  · norm_num [transcriptSpan, spanCaps, capEnd]
  · simp only [chunk_by_time, spanCaps, chunkGo, capEnd]
    norm_num

/-- Claim C7: on the chunk text
`"Cats are mammals. Dogs bark loudly. Fish swim fast."` with `k = 2`,
`fallback_questions` produces exactly two questions whose `correct` fields are
the first two sentences verbatim, whose question texts are
`What was mentioned here: "<sentence s truncated to 70 chars>..."`, and whose
assembled choice lists (`build_qa`'s `[correct] + distractors`) are exactly the
sentence followed by the three fixed generic distractors. -/
theorem fallback_questions_cats :
    fallback_questions
        (pystr ("Cats are mammals. Dogs bark loudly. Fish swim fast.")) 2 =
      [{ question := pystr ("What was mentioned here: \"Cats are mammals...\"")
         correct := pystr ("Cats are mammals")
         distractors := [pystr ("Not mentioned"), pystr ("Something unrelated"),
                         pystr ("I'm not sure")] },
       { question := pystr ("What was mentioned here: \"Dogs bark loudly...\"")
         correct := pystr ("Dogs bark loudly")
         distractors := [pystr ("Not mentioned"), pystr ("Something unrelated"),
                         pystr ("I'm not sure")] }] ∧
    (fallback_questions
        (pystr ("Cats are mammals. Dogs bark loudly. Fish swim fast.")) 2).map
        assembleChoices =
      [[pystr ("Cats are mammals"), pystr ("Not mentioned"),
        pystr ("Something unrelated"), pystr ("I'm not sure")],
       [pystr ("Dogs bark loudly"), pystr ("Not mentioned"),
        pystr ("Something unrelated"), pystr ("I'm not sure")]] := by
  constructor <;> rfl

/-- Claim C4: the second-chance (P2) policy of `submit_answer`.  Starting at an
in-range index with the retry flag clear: a wrong first submission leaves the
state unchanged and sets the flag; the immediately following submission at the
same index always advances the index by one, adds 1 to the score exactly when
that submission is correct, and clears the flag; a correct first submission
advances and scores immediately (flag stays clear). -/
theorem submit_answer_second_chance (s : QuizState) (h : s.idx < s.qa.length)
    (c1 c2 : Str) (hwrong : c1 ≠ (s.qa.getD s.idx default).a) :
    submit_answer s false c1 =
      (s, true, pystr ("❌ Not quite.\n**Correct:** ") ++ (s.qa.getD s.idx default).a) ∧
    ((submit_answer s true c2).1.idx = s.idx + 1 ∧
     (submit_answer s true c2).1.score =
       s.score + (if c2 = (s.qa.getD s.idx default).a then 1 else 0) ∧
     (submit_answer s true c2).2.1 = false) ∧
    ((submit_answer s false (s.qa.getD s.idx default).a).1.idx = s.idx + 1 ∧
     (submit_answer s false (s.qa.getD s.idx default).a).1.score = s.score + 1 ∧
     (submit_answer s false (s.qa.getD s.idx default).a).2.1 = false) := by
  have hg : ¬(s.qa.length ≤ s.idx) := Nat.not_le.mpr h
  refine ⟨?_, ⟨?_, ?_, ?_⟩, ?_, ?_, ?_⟩
  all_goals simp [submit_answer, hg, hwrong, List.getD] at hwrong ⊢
  all_goals simp [hwrong]

/-- Witness for C4 at a concrete one-question quiz. -/
theorem submit_answer_second_chance_witness :
    submit_answer sampleQuiz false (pystr ("B")) =
      (sampleQuiz, true,
       pystr ("❌ Not quite.\n**Correct:** ") ++
         (sampleQuiz.qa.getD sampleQuiz.idx default).a) ∧
    ((submit_answer sampleQuiz true (pystr ("C"))).1.idx = sampleQuiz.idx + 1 ∧
     (submit_answer sampleQuiz true (pystr ("C"))).1.score =
       sampleQuiz.score +
         (if pystr ("C") = (sampleQuiz.qa.getD sampleQuiz.idx default).a then 1 else 0) ∧
     (submit_answer sampleQuiz true (pystr ("C"))).2.1 = false) ∧
    ((submit_answer sampleQuiz false
        (sampleQuiz.qa.getD sampleQuiz.idx default).a).1.idx = sampleQuiz.idx + 1 ∧
     (submit_answer sampleQuiz false
        (sampleQuiz.qa.getD sampleQuiz.idx default).a).1.score = sampleQuiz.score + 1 ∧
     (submit_answer sampleQuiz false
        (sampleQuiz.qa.getD sampleQuiz.idx default).a).2.1 = false) :=
  submit_answer_second_chance sampleQuiz (by decide) (pystr ("B")) (pystr ("C"))
    (by decide)

/-- Claim C10: `get_current_question` is a pure read of the state (modelled as
a function `QuizState → Option _`, faithful to the Python, which copies the
choice list before reordering), so two calls without an intervening submit
return identical results; and the returned ordering is exactly the
deterministic index-parity swap `reorderForIndex` applied to the stored
choices. -/
theorem get_current_question_deterministic (s : QuizState)
    (h : s.idx < s.qa.length) :
    get_current_question s = get_current_question s ∧
    get_current_question s =
      some (questionPrompt s.idx (s.qa.getD s.idx default),
            reorderForIndex s.idx (s.qa.getD s.idx default).choices) := by
  refine ⟨rfl, ?_⟩
  simp only [get_current_question, reorderForIndex, if_pos h]

/-- Witness for C10 at a concrete quiz state. -/
theorem get_current_question_deterministic_witness :
    get_current_question sampleQuiz = get_current_question sampleQuiz ∧
    get_current_question sampleQuiz =
      some (questionPrompt sampleQuiz.idx (sampleQuiz.qa.getD sampleQuiz.idx default),
            reorderForIndex sampleQuiz.idx
              (sampleQuiz.qa.getD sampleQuiz.idx default).choices) :=
  get_current_question_deterministic sampleQuiz (by decide)

theorem mem_insertByTs (a x : QItem) :
    ∀ (l : List QItem), a ∈ insertByTs x l → a = x ∨ a ∈ l := by
  intro l
  induction l with
  | nil =>
    intro h
    simp [insertByTs] at h
    exact Or.inl h
  | cons y ys ih =>
    intro h
    rw [insertByTs] at h
    by_cases hc : x.timestamp ≤ y.timestamp
    · rw [if_pos hc] at h
      rcases List.mem_cons.mp h with h1 | h2
      · exact Or.inl h1
      · exact Or.inr h2
    · rw [if_neg hc] at h
      rcases List.mem_cons.mp h with h1 | h2
      · exact Or.inr (List.mem_cons.mpr (Or.inl h1))
      · rcases ih h2 with h3 | h4
        · exact Or.inl h3
        · exact Or.inr (List.mem_cons.mpr (Or.inr h4))

theorem mem_sortByTs (a : QItem) :
    ∀ (l : List QItem), a ∈ sortByTs l → a ∈ l := by
  intro l
  induction l with
  | nil => intro h; simp [sortByTs] at h
  | cons y ys ih =>
    intro h
    rw [sortByTs] at h
    rcases mem_insertByTs a y _ h with h1 | h2
    · exact List.mem_cons.mpr (Or.inl h1)
    · exact List.mem_cons.mpr (Or.inr (ih h2))

theorem pairwise_insertByTs (x : QItem) :
    ∀ (l : List QItem),
      List.Pairwise (fun a b : QItem => a.timestamp ≤ b.timestamp) l →
      List.Pairwise (fun a b : QItem => a.timestamp ≤ b.timestamp) (insertByTs x l) := by
  intro l
  induction l with
  | nil => intro _; simp [insertByTs]
  | cons y ys ih =>
    intro h
    rw [List.pairwise_cons] at h
    obtain ⟨hy, hys⟩ := h
    rw [insertByTs]
    by_cases hc : x.timestamp ≤ y.timestamp
    · rw [if_pos hc]
      refine List.pairwise_cons.mpr ⟨?_, List.pairwise_cons.mpr ⟨hy, hys⟩⟩
      intro z hz
      rcases List.mem_cons.mp hz with rfl | hz2
      · exact hc
      · exact le_trans hc (hy z hz2)
    · rw [if_neg hc]
      refine List.pairwise_cons.mpr ⟨?_, ih hys⟩
      intro z hz
      rcases mem_insertByTs z x ys hz with rfl | hz2
      · exact le_of_not_le hc
      · exact hy z hz2

theorem pairwise_sortByTs :
    ∀ (l : List QItem),
      List.Pairwise (fun a b : QItem => a.timestamp ≤ b.timestamp) (sortByTs l) := by
  intro l
  induction l with
  | nil => simp [sortByTs]
  | cons y ys ih =>
    rw [sortByTs]
    exact pairwise_insertByTs y _ ih

/-- Claim C2 (amended): every item kept by the single-call builder's
validation has a non-empty question, a non-empty correct answer, and between
2 and 3 distractors, and the returned list is sorted by ascending timestamp;
string timestamps of the `m:ss` / `h:mm:ss` forms are parsed to seconds.
(The original claim's "non-negative timestamp ... items failing any of these
validations are dropped" is refuted by
`generate_quiz_validate_keeps_negative`: the code never checks the sign, and
unparseable timestamps are coerced to 0 instead of dropping the item.) -/
theorem generate_quiz_validate_props (data : List RawItem) :
    (∀ it ∈ generate_quiz_validate data,
        it.question ≠ [] ∧ it.correct ≠ [] ∧
        2 ≤ it.distractors.length ∧ it.distractors.length ≤ 3) ∧
    List.Pairwise (fun a b : QItem => a.timestamp ≤ b.timestamp)
      (generate_quiz_validate data) ∧
    _parse_timestamp (pystr ("1:30")) = 90 ∧
    _parse_timestamp (pystr ("1:02:03")) = 3723 := by
  refine ⟨?_, ?_, ?_, ?_⟩
  · intro it hit
    simp only [generate_quiz_validate] at hit
    have hmem := mem_sortByTs it _ hit
    rw [List.mem_filterMap] at hmem
    obtain ⟨item, _, hsome⟩ := hmem
    split at hsome
    · rename_i hguard
      rw [Option.some.injEq] at hsome
      subst hsome
      refine ⟨hguard.1, hguard.2.1, ?_, ?_⟩
      · simp only [List.length_take]
        have := hguard.2.2
        omega
      · simp only [List.length_take]
        omega
    · exact absurd hsome (by simp)
  · simp only [generate_quiz_validate]
    exact pairwise_sortByTs _
  · have h : _parse_timestamp (pystr ("1:30")) = ((90 : ℤ) : ℚ) := rfl
    rw [h]
    norm_num
  · have h : _parse_timestamp (pystr ("1:02:03")) = ((3723 : ℤ) : ℚ) := rfl
    rw [h]
    norm_num

/-- Witness for C2 at the concrete item list `[negItem]`. -/
theorem generate_quiz_validate_props_witness :
    ((⟨pystr ("Q"), pystr ("A"), [pystr ("B"), pystr ("C")], -5⟩ : QItem).question ≠ [] ∧
     (⟨pystr ("Q"), pystr ("A"), [pystr ("B"), pystr ("C")], -5⟩ : QItem).correct ≠ [] ∧
     2 ≤ (⟨pystr ("Q"), pystr ("A"), [pystr ("B"), pystr ("C")], -5⟩ : QItem).distractors.length ∧
     (⟨pystr ("Q"), pystr ("A"), [pystr ("B"), pystr ("C")], -5⟩ : QItem).distractors.length ≤ 3) ∧
    List.Pairwise (fun a b : QItem => a.timestamp ≤ b.timestamp)
      (generate_quiz_validate [negItem]) ∧
    _parse_timestamp (pystr ("1:30")) = 90 :=
  ⟨(generate_quiz_validate_props [negItem]).1 _
      (by rw [show generate_quiz_validate [negItem] =
            [⟨pystr ("Q"), pystr ("A"), [pystr ("B"), pystr ("C")], -5⟩] from rfl]
          exact List.mem_singleton.mpr rfl),
   (generate_quiz_validate_props [negItem]).2.1,
   (generate_quiz_validate_props [negItem]).2.2.1⟩

/-- Counterexample to claim C2 as stated: an item whose timestamp is the
number −5 passes the validation unchanged — the code checks only question,
answer and distractor count, never that the timestamp is non-negative. -/
theorem generate_quiz_validate_keeps_negative :
    generate_quiz_validate [negItem] =
      [{ question := pystr ("Q"), correct := pystr ("A"),
         distractors := [pystr ("B"), pystr ("C")], timestamp := -5 }] ∧
    (-5 : ℚ) < 0 := by
  exact ⟨rfl, by norm_num⟩

theorem qgen_validate_shape (data : List QRaw) :
    ∀ it ∈ qgen_validate data, it.distractors ≠ [] := by
  intro it hit
  simp only [qgen_validate, List.mem_filterMap] at hit
  obtain ⟨item, _, hsome⟩ := hit
  split at hsome
  · rename_i hguard
    rw [Option.some.injEq] at hsome
    subst hsome
    exact hguard.2.2
  · exact absurd hsome (by simp)

theorem fallback_questions_shape (txt : Str) (k : ℕ) :
    ∀ it ∈ fallback_questions txt k, it.distractors ≠ [] := by
  intro it hit
  simp only [fallback_questions, List.mem_map] at hit
  obtain ⟨s, _, rfl⟩ := hit
  simp

theorem genOrFallback_shape (items0 : List GItem) (txt : Str)
    (h0 : ∀ it ∈ items0, it.distractors ≠ []) :
    ∀ it ∈ genOrFallback items0 txt, it.distractors ≠ [] := by
  intro it hit
  rw [genOrFallback] at hit
  split at hit
  · exact fallback_questions_shape txt 2 it hit
  · exact h0 it hit

theorem addItems_inv (start : ℚ) :
    ∀ (items : List GItem) (acc : List QA × List Str × List Str),
      (∀ x ∈ acc.1, choicesWellFormed x) →
      (∀ it ∈ items, it.distractors ≠ []) →
      ∀ x ∈ (addItems start items acc).1, choicesWellFormed x := by
  intro items
  induction items with
  | nil =>
    intro acc hacc _ x hx
    obtain ⟨qa, seen, prev⟩ := acc
    rw [addItems] at hx
    exact hacc x hx
  | cons it rest ih =>
    intro acc hacc hitems x hx
    obtain ⟨qa, seen, prev⟩ := acc
    rw [addItems] at hx
    by_cases hc : pyStrip it.question = [] ∨ pyStrip it.question ∈ seen
    · rw [if_pos hc] at hx
      exact ih (qa, seen, prev) hacc
        (fun j hj => hitems j (List.mem_cons.mpr (Or.inr hj))) x hx
    · rw [if_neg hc] at hx
      refine ih _ ?_ (fun j hj => hitems j (List.mem_cons.mpr (Or.inr hj))) x hx
      intro y hy
      rcases List.mem_append.mp hy with h1 | h2
      · exact hacc y h1
      · have hy2 := List.mem_singleton.mp h2
        subst hy2
        constructor
        · rfl
        · have hne := hitems it (List.mem_cons.mpr (Or.inl rfl))
          have : it.distractors.length ≠ 0 := fun hz => hne (List.length_eq_zero.mp hz)
          simp only [assembleChoices, List.length_cons]
          omega

theorem build_qa_chunks_inv (gen : Str → List Str → List GItem)
    (hgen : ∀ txt prev it, it ∈ gen txt prev → it.distractors ≠ []) :
    ∀ (chunks : List (ℚ × List Caption)) (acc : List QA × List Str × List Str),
      (∀ x ∈ acc.1, choicesWellFormed x) →
      ∀ x ∈ build_qa_chunks gen chunks acc, choicesWellFormed x := by
  intro chunks
  induction chunks with
  | nil =>
    intro acc hacc x hx
    obtain ⟨qa, seen, prev⟩ := acc
    rw [build_qa_chunks] at hx
    exact hacc x hx
  | cons c rest ih =>
    intro acc hacc x hx
    obtain ⟨qa, seen, prev⟩ := acc
    obtain ⟨start, ch⟩ := c
    rw [build_qa_chunks] at hx
    have hshape : ∀ it ∈ genOrFallback (gen (chunk_text ch) prev) (chunk_text ch),
        it.distractors ≠ [] :=
      genOrFallback_shape _ _ (fun j hj => hgen _ _ j hj)
    by_cases h1 : chunk_text ch = [] ∨ (chunk_text ch).length < 60
    · rw [if_pos h1] at hx
      exact ih _ hacc x hx
    · rw [if_neg h1] at hx
      by_cases h2 : 20 ≤ (addItems start
          (genOrFallback (gen (chunk_text ch) prev) (chunk_text ch))
          (qa, seen, prev)).1.length
      · rw [if_pos h2] at hx
        exact addItems_inv start _ (qa, seen, prev) hacc hshape x hx
      · rw [if_neg h2] at hx
        exact ih _ (addItems_inv start _ (qa, seen, prev) hacc hshape) x hx

/-- Claim C3 (amended): every record assembled by the quiz build carries its
(unstripped) correct answer at index 0 of `choices` and has at least 2
choices (1 + the validated distractors, which are non-empty in both the
generator path and the fallback path).  `len(choices) >= 3` and "contains the
correct answer exactly once" do NOT hold in general, because the per-chunk
validation in `llm_qgen.py` accepts a single distractor (and never compares
distractors against the correct answer): see
`build_qa_two_choices_counterexample`. -/
theorem build_qa_choices_invariant (chunks : List (ℚ × List Caption))
    (rawGen : Str → List Str → Option (List QRaw)) :
    ∀ x ∈ build_qa_core chunks
        (fun txt prev => generate_questions (rawGen txt prev)),
      choicesWellFormed x := by
  intro x hx
  refine build_qa_chunks_inv _ ?_ (chunks.take 8) ([], [], []) (by simp) x hx
  intro txt prev it hit
  simp only [generate_questions] at hit
  cases hr : rawGen txt prev with
  | none => rw [hr] at hit; simp at hit
  | some d =>
    rw [hr] at hit
    exact qgen_validate_shape d it hit

/-- Witness for C3: the concrete record assembled from `longChunk` under the
one-distractor generator response satisfies the invariant. -/
theorem build_qa_choices_invariant_witness : choicesWellFormed c3qa :=
  build_qa_choices_invariant [((0 : ℚ), longChunk)] c3gen c3qa
    (by rw [show build_qa_core [((0 : ℚ), longChunk)]
          (fun txt prev => generate_questions (c3gen txt prev)) = [c3qa] from rfl]
        exact List.mem_singleton.mpr rfl)

/-- Counterexample to claim C3 as stated: a generator item with a single
distractor passes the `llm_qgen.py` validation, and the assembled record's
choice list has length 2, violating `len(choices) >= 3`. -/
theorem dropWhile_shape (p : Char → Bool) :
    ∀ (l : Str), l.dropWhile p = [] ∨ ∃ c cs, l.dropWhile p = c :: cs ∧ p c = false := by
  intro l
  induction l with
  | nil => exact Or.inl rfl
  | cons x xs ih =>
    cases hx : p x
    · exact Or.inr ⟨x, xs, by simp [List.dropWhile_cons, hx], hx⟩
    · simpa [List.dropWhile_cons, hx] using ih

theorem pyRStrip_slice (l : Str) : ∃ t, l = pyRStrip l ++ t := by
  refine ⟨(l.reverse.takeWhile pyIsSpace).reverse, ?_⟩
  have h := List.takeWhile_append_dropWhile pyIsSpace l.reverse
  have h2 : l = (l.reverse.takeWhile pyIsSpace ++ l.reverse.dropWhile pyIsSpace).reverse := by
    rw [h, List.reverse_reverse]
  conv_lhs => rw [h2]
  rw [List.reverse_append]
  rfl

theorem pyRStrip_cons_ne_nil (c : Char) (t : Str) (hc : pyIsSpace c = false) :
    pyRStrip (c :: t) ≠ [] := by
  intro h
  have h2 : (c :: t).reverse.dropWhile pyIsSpace = [] := by
    have := congrArg List.reverse h
    simpa [pyRStrip] using this
  have h3 := List.dropWhile_eq_nil_iff.mp h2 c (by simp)
  rw [hc] at h3
  exact Bool.false_ne_true h3

theorem pyStrip_shape (l : Str) :
    pyStrip l = [] ∨ ∃ c cs, pyStrip l = c :: cs ∧ pyIsSpace c = false := by
  rcases dropWhile_shape pyIsSpace l with h | ⟨c, cs, hcc, hc⟩
  · left
    simp [pyStrip, pyLStrip, pyRStrip, h]
  · rcases pyRStrip_slice (c :: cs) with ⟨t, ht⟩
    cases hr : pyRStrip (c :: cs) with
    | nil => exact absurd hr (pyRStrip_cons_ne_nil c cs hc)
    | cons d ds =>
      right
      refine ⟨d, ds, ?_, ?_⟩
      · simp [pyStrip, pyLStrip, hcc, hr]
      · rw [hr] at ht
        have : c = d := by
          have := ht
          simp at this
          exact this.1
        rw [← this]
        exact hc

theorem pyStrip_cons_ne_nil (c : Char) (t : Str) (hc : pyIsSpace c = false) :
    pyStrip (c :: t) ≠ [] := by
  have hl : pyLStrip (c :: t) = c :: t := by
    simp [pyLStrip, List.dropWhile_cons, hc]
  simp only [pyStrip, hl]
  exact pyRStrip_cons_ne_nil c t hc

theorem joinWith_cons (sep p : Str) (ps : List Str) :
    ∃ r, joinWith sep (p :: ps) = p ++ r := by
  cases ps with
  | nil => exact ⟨[], by simp [joinWith, List.intersperse]⟩
  | cons q qs => exact ⟨sep ++ (List.intersperse sep (q :: qs)).flatten,
      by simp [joinWith, List.intersperse]⟩

theorem eventText_nil_iff (ev : Json3Event) :
    eventText ev = [] ↔ eventParts ev = [] := by
  constructor
  · intro h
    cases hp : eventParts ev with
    | nil => rfl
    | cons p ps =>
      exfalso
      have hpmem : p ∈ eventParts ev := by rw [hp]; simp
      simp only [eventParts, List.mem_filterMap] at hpmem
      obtain ⟨seg, _, hseg⟩ := hpmem
      cases seg with
      | nonDict => simp [segText] at hseg
      | dictSeg u =>
        simp only [segText] at hseg
        split at hseg
        · exact absurd hseg (by simp)
        · rename_i hne
          rw [Option.some.injEq] at hseg
          rcases pyStrip_shape u with h0 | ⟨c, cs, hcc, hc⟩
          · exact hne h0
          · rcases joinWith_cons (pystr (" ")) p ps with ⟨r, hr⟩
            rw [eventText, hp, hr, ← hseg, hcc] at h
            have hcn : c ≠ '\n' := by
              intro heq
              rw [heq] at hc
              simp [pyIsSpace] at hc
            have : ((c :: cs ++ r).map (fun c => if c = '\n' then ' ' else c)) =
                c :: ((cs ++ r).map (fun c => if c = '\n' then ' ' else c)) := by
              simp [hcn]
            rw [this] at h
            exact pyStrip_cons_ne_nil c _ hc h
  · intro h
    simp [eventText, h, joinWith, List.intersperse, pyStrip, pyLStrip, pyRStrip]

theorem json3Go_eq : ∀ (evs : List Json3Event) (out : List Caption),
    json3Go evs out = out ++ evs.filterMap json3Keep := by
  intro evs
  induction evs with
  | nil => intro out; simp [json3Go]
  | cons ev rest ih =>
    intro out
    rw [json3Go]
    by_cases hp : eventParts ev = []
    · rw [if_pos hp, ih, List.filterMap_cons]
      have ht : eventText ev = [] := (eventText_nil_iff ev).mpr hp
      simp [json3Keep, ht]
    · rw [if_neg hp]
      by_cases ht : eventText ev = []
      · rw [if_pos ht, ih, List.filterMap_cons]
        simp [json3Keep, ht]
      · rw [if_neg ht, ih, List.filterMap_cons]
        simp [json3Keep, ht]

/-- Claim C6: on every decoded json3 document, the parser agrees with the
declarative per-event rule `json3Keep` (each kept event contributes
`start = tStartMs / 1000` with the absent key defaulting to 0, empty-text
events are dropped), every output fragment's start and text come from some
event with non-empty normalized text, and the output start sequence is an
order-preserving subsequence of the per-event start sequence. -/
theorem parse_json3_props (doc : Json3Doc) :
    _parse_json3 doc = doc.events.filterMap json3Keep ∧
    (∀ fr ∈ _parse_json3 doc, ∃ ev ∈ doc.events,
        fr.start = ev.tStartMs.getD 0 / 1000 ∧ fr.text = eventText ev ∧
        eventText ev ≠ []) ∧
    List.Sublist ((_parse_json3 doc).map Caption.start)
      (doc.events.map (fun ev => ev.tStartMs.getD 0 / 1000)) := by
  have hmain : _parse_json3 doc = doc.events.filterMap json3Keep := by
    rw [_parse_json3, json3Go_eq]
    rfl
  refine ⟨hmain, ?_, ?_⟩
  · intro fr hfr
    rw [hmain, List.mem_filterMap] at hfr
    obtain ⟨ev, hev, hsome⟩ := hfr
    refine ⟨ev, hev, ?_⟩
    simp only [json3Keep] at hsome
    split at hsome
    · exact absurd hsome (by simp)
    · rename_i hne
      rw [Option.some.injEq] at hsome
      subst hsome
      exact ⟨rfl, rfl, hne⟩
  · rw [hmain]
    clear hmain
    induction doc.events with
    | nil => simp
    | cons ev rest ih =>
      rw [List.filterMap_cons]
      cases hk : json3Keep ev with
      | none =>
        simp only [List.map_cons]
        exact ih.cons _
      | some fr =>
        simp only [List.map_cons]
        have hstart : fr.start = ev.tStartMs.getD 0 / 1000 := by
          simp only [json3Keep] at hk
          split at hk
          · exact absurd hk (by simp)
          · rw [Option.some.injEq] at hk
            subst hk
            rfl
        rw [← hstart]
        exact ih.cons₂ _

/-- Witness for C6 at the concrete document `sampleDoc`. -/
theorem parse_json3_props_witness :
    _parse_json3 sampleDoc = sampleDoc.events.filterMap json3Keep ∧
    (∃ ev ∈ sampleDoc.events,
        json3Frag0.start = ev.tStartMs.getD 0 / 1000 ∧
        json3Frag0.text = eventText ev ∧ eventText ev ≠ []) ∧
    List.Sublist ((_parse_json3 sampleDoc).map Caption.start)
      (sampleDoc.events.map (fun ev => ev.tStartMs.getD 0 / 1000)) :=
  ⟨(parse_json3_props sampleDoc).1,
   (parse_json3_props sampleDoc).2.1 json3Frag0
     (by rw [show _parse_json3 sampleDoc =
           [json3Frag0,
            { start := (0 : ℚ) / 1000, duration := 0, text := pystr ("World") }] from rfl]
         simp),
   (parse_json3_props sampleDoc).2.2⟩

theorem tryLangs_ok_ne_nil (tracks : List (Str × List FmtEntry))
    (fetch : Str → Option SubContent) :
    ∀ (langs : List Str) (caps : List Caption) (k : Str),
      tryLangs tracks fetch langs = some (caps, k) → caps ≠ [] := by
  intro langs
  induction langs with
  | nil =>
    intro caps k h
    rw [tryLangs] at h
    exact absurd h (by simp)
  | cons lang rest ih =>
    intro caps k h
    rw [tryLangs] at h
    split at h
    · exact ih caps k h
    · split at h
      · exact ih caps k h
      · split at h
        · exact ih caps k h
        · split at h
          · exact ih caps k h
          · split at h
            · rename_i hne
              rw [Option.some.injEq, Prod.mk.injEq] at h
              rw [← h.1]
              exact hne
            · exact ih caps k h

theorem tryAllTracks_ok_ne_nil (fetch : Str → Option SubContent) :
    ∀ (tracks : List (Str × List FmtEntry)) (caps : List Caption) (k : Str),
      tryAllTracks fetch tracks = some (caps, k) → caps ≠ [] := by
  intro tracks
  induction tracks with
  | nil =>
    intro caps k h
    rw [tryAllTracks] at h
    exact absurd h (by simp)
  | cons t rest ih =>
    intro caps k h
    obtain ⟨lang_key, formats⟩ := t
    rw [tryAllTracks] at h
    split at h
    · exact ih caps k h
    · split at h
      · exact ih caps k h
      · split at h
        · exact ih caps k h
        · split at h
          · rename_i hne
            rw [Option.some.injEq, Prod.mk.injEq] at h
            rw [← h.1]
            exact hne
          · exact ih caps k h

theorem tryLangs_none_of_all_empty (tracks : List (Str × List FmtEntry))
    (fetch : Str → Option SubContent)
    (hfe : ∀ u c, fetch u = some c → ∀ e, parse_as e c = []) :
    ∀ (langs : List Str), tryLangs tracks fetch langs = none := by
  intro langs
  induction langs with
  | nil => rw [tryLangs]
  | cons lang rest ih =>
    rw [tryLangs]
    split
    · exact ih
    · split
      · exact ih
      · split
        · exact ih
        · split
          · exact ih
          · split
            · rename_i content heq hpar
              exact absurd (hfe _ _ heq _) hpar
            · exact ih

theorem tryAllTracks_none_of_all_empty (fetch : Str → Option SubContent)
    (hfe : ∀ u c, fetch u = some c → ∀ e, parse_as e c = []) :
    ∀ (tracks : List (Str × List FmtEntry)), tryAllTracks fetch tracks = none := by
  intro tracks
  induction tracks with
  | nil => rw [tryAllTracks]
  | cons t rest ih =>
    obtain ⟨lang_key, formats⟩ := t
    rw [tryAllTracks]
    split
    · exact ih
    · split
      · exact ih
      · split
        · exact ih
        · split
          · rename_i content heq hpar
            exact absurd (hfe _ _ heq _) hpar
          · exact ih

/-- Claim C8: caption resolution never succeeds with an empty fragment list;
it fails with the `CaptionUnavailable`-style error when the merged track dict
is empty, and likewise when every fetched track content parses to no
fragments. -/
theorem fetch_captions_core_props (info : YInfo) (fetch : Str → Option SubContent)
    (pl : Option (List Str)) :
    (∀ caps lang, fetch_captions_core info fetch pl = .ok (caps, lang) → caps ≠ []) ∧
    (_get_subtitle_tracks info = [] →
      fetch_captions_core info fetch pl =
        .error (pystr ("No captions found or accessible for this video."))) ∧
    ((∀ u c, fetch u = some c → ∀ e, parse_as e c = []) →
      fetch_captions_core info fetch pl =
        .error (pystr ("No captions found or accessible for this video."))) := by
  refine ⟨?_, ?_, ?_⟩
  · intro caps lang h
    rw [fetch_captions_core] at h
    split at h
    · exact absurd h (by simp)
    · split at h
      · rename_i r hr
        rw [Except.ok.injEq] at h
        rw [h] at hr
        exact tryLangs_ok_ne_nil _ _ _ _ _ hr
      · split at h
        · rename_i r hr
          rw [Except.ok.injEq] at h
          rw [h] at hr
          exact tryAllTracks_ok_ne_nil _ _ _ _ hr
        · exact absurd h (by simp)
  · intro h
    rw [fetch_captions_core, if_pos h]
  · intro hfe
    rw [fetch_captions_core]
    split
    · rfl
    · rw [tryLangs_none_of_all_empty _ _ hfe, tryAllTracks_none_of_all_empty _ hfe]

/-- Witness for C8: a video with no caption tracks at all resolves to the
`CaptionUnavailable`-style error. -/
theorem fetch_captions_core_props_witness :
    fetch_captions_core { formats := [], automatic_captions := [], subtitles := [] }
        (fun _ => none) none =
      .error (pystr ("No captions found or accessible for this video.")) :=
  (fetch_captions_core_props
    { formats := [], automatic_captions := [], subtitles := [] }
    (fun _ => none) none).2.1 rfl

/-- Claim C9: the transient cookie file is gone on every exit path of
`fetch_captions` — the `finally` removes it right after the extraction
attempt, before any of the later failure or success paths — so the file
system after the call equals the file system before it. -/
theorem fetch_captions_fs_cleanup (env : CookieEnv) (freshPath : Str)
    (extract : Except Str (Option YInfo)) (fetch : Str → Option SubContent)
    (pl : Option (List Str)) (url_or_id : Str) (fs : List Str)
    (hfresh : freshPath ∉ fs) :
    (fetch_captions_fs env freshPath extract fetch pl url_or_id fs).2 = fs := by
  have hrem : fsRemove (fs ++ [freshPath]) freshPath = fs := by
    rw [fsRemove, List.filter_append]
    have h1 : List.filter (fun q => decide ¬(q = freshPath)) [freshPath] = [] := by
      simp
    rw [h1, List.append_nil]
    refine List.filter_eq_self.mpr ?_
    intro a ha
    simp only [decide_eq_true_eq]
    intro hqe
    exact hfresh (hqe ▸ ha)
  rw [fetch_captions_fs]
  split
  · rfl
  · cases env with
    | unset =>
      cases extract with
      | error e => simp [_get_cookies_file]
      | ok oi => cases oi <;> simp [_get_cookies_file]
    | invalid =>
      cases extract with
      | error e => simp [_get_cookies_file]
      | ok oi => cases oi <;> simp [_get_cookies_file]
    | valid =>
      cases extract with
      | error e => simp [_get_cookies_file, hrem]
      | ok oi => cases oi <;> simp [_get_cookies_file, hrem]

/-- Witness for C9: with a decodable cookie bundle, a fresh temp path and a
failing extraction, the file system is restored to its initial (empty)
state. -/
theorem fetch_captions_fs_cleanup_witness :
    (fetch_captions_fs .valid (pystr ("/tmp/yt_cookies_a.txt"))
        (.error (pystr ("boom"))) (fun _ => none) none
        (pystr ("dQw4w9WgXcQ")) []).2 = [] :=
  fetch_captions_fs_cleanup .valid (pystr ("/tmp/yt_cookies_a.txt"))
    (.error (pystr ("boom"))) (fun _ => none) none (pystr ("dQw4w9WgXcQ")) []
    (by simp)

theorem strStarts_nil_iff (p : Str) : strStarts p [] = true ↔ p = [] := by
  cases p <;> simp [strStarts]

theorem strHas_nil_pat (y : Str) : strHas [] y = true := by
  cases y <;> simp [strHas, strStarts]

theorem strStarts_refl (p : Str) : strStarts p p = true := by
  induction p with
  | nil => rfl
  | cons a ps ih => simp [strStarts, ih]

theorem strStarts_append_right (p : Str) :
    ∀ (t u : Str), strStarts p t = true → strStarts p (t ++ u) = true := by
  induction p with
  | nil => intro t u _; rfl
  | cons a ps ih =>
    intro t u h
    cases t with
    | nil => simp [strStarts] at h
    | cons b ts =>
      simp only [strStarts, Bool.and_eq_true, decide_eq_true_eq] at h
      simp only [List.cons_append, strStarts, Bool.and_eq_true, decide_eq_true_eq]
      exact ⟨h.1, ih ts u h.2⟩

theorem strStarts_self_append (p r : Str) : strStarts p (p ++ r) = true :=
  strStarts_append_right p p r (strStarts_refl p)

theorem strStarts_exists (p : Str) :
    ∀ (q : Str), strStarts p q = true → ∃ r, q = p ++ r := by
  induction p with
  | nil => intro q _; exact ⟨q, rfl⟩
  | cons a ps ih =>
    intro q h
    cases q with
    | nil => simp [strStarts] at h
    | cons b qs =>
      simp only [strStarts, Bool.and_eq_true, decide_eq_true_eq] at h
      obtain ⟨h1, h2⟩ := h
      subst h1
      obtain ⟨r, hr⟩ := ih qs h2
      exact ⟨r, by rw [hr, List.cons_append]⟩

theorem strStarts_drop_pat (p q : Str) :
    ∀ (t : Str), strStarts (p ++ q) t = true → strStarts p t = true := by
  induction p with
  | nil => intro t _; rfl
  | cons a ps ih =>
    intro t h
    cases t with
    | nil => simp [strStarts] at h
    | cons b ts =>
      simp only [List.cons_append, strStarts, Bool.and_eq_true, decide_eq_true_eq] at h ⊢
      exact ⟨h.1, ih ts h.2⟩

theorem strHas_of_starts (pat s : Str) (h : strStarts pat s = true) :
    strHas pat s = true := by
  cases s with
  | nil => rw [strHas]; exact h
  | cons c rest => rw [strHas]; simp [h]

theorem strHas_cons_of (pat : Str) (c : Char) (rest : Str)
    (h : strHas pat rest = true) : strHas pat (c :: rest) = true := by
  rw [strHas]
  simp [h]

theorem strHas_self (pat : Str) : strHas pat pat = true :=
  strHas_of_starts pat pat (strStarts_refl pat)

theorem strHas_append_left (pat : Str) :
    ∀ (x y : Str), strHas pat x = true → strHas pat (x ++ y) = true := by
  intro x
  induction x with
  | nil =>
    intro y h
    rw [strHas] at h
    rw [(strStarts_nil_iff pat).mp h]
    exact strHas_nil_pat _
  | cons c xs ih =>
    intro y h
    rw [strHas] at h
    rw [Bool.or_eq_true] at h
    rcases h with h1 | h2
    · exact strHas_of_starts _ _ (strStarts_append_right _ _ _ h1)
    · rw [List.cons_append]
      exact strHas_cons_of _ _ _ (ih y h2)

theorem strHas_append_right (pat : Str) :
    ∀ (x y : Str), strHas pat y = true → strHas pat (x ++ y) = true := by
  intro x
  induction x with
  | nil => intro y h; simpa using h
  | cons c xs ih =>
    intro y h
    rw [List.cons_append]
    exact strHas_cons_of _ _ _ (ih y h)

theorem strHas_pat_append (p q : Str) :
    ∀ (x : Str), strHas (p ++ q) x = true → strHas p x = true := by
  intro x
  induction x with
  | nil =>
    intro h
    rw [strHas] at h ⊢
    have := (strStarts_nil_iff _).mp h
    rw [List.append_eq_nil] at this
    rw [this.1]
    rfl
  | cons c xs ih =>
    intro h
    rw [strHas] at h ⊢
    rw [Bool.or_eq_true] at h
    rcases h with h1 | h2
    · simp [strStarts_drop_pat p q _ h1]
    · simp [ih h2]

theorem strEnds_strHas (pat x : Str) (h : strEnds pat x = true) :
    strHas pat x = true := by
  rw [strEnds] at h
  obtain ⟨r, hr⟩ := strStarts_exists _ _ h
  have hx : x = r.reverse ++ pat := by
    have h2 := congrArg List.reverse hr
    rw [List.reverse_reverse, List.reverse_append, List.reverse_reverse] at h2
    exact h2
  rw [hx]
  exact strHas_append_right _ _ _ (strHas_self pat)

theorem sbc_append (c : Char) :
    ∀ (s : Str), (splitBeforeChar c s).1 ++ (splitBeforeChar c s).2 = s := by
  intro s
  induction s with
  | nil => rfl
  | cons x xs ih =>
    rw [splitBeforeChar]
    by_cases h : x = c
    · rw [if_pos h]
      rfl
    · rw [if_neg h]
      simpa using ih

theorem sbc_not_mem (c : Char) :
    ∀ (s : Str), (∀ x ∈ s, ¬x = c) → splitBeforeChar c s = (s, []) := by
  intro s
  induction s with
  | nil => intro _; rfl
  | cons x xs ih =>
    intro h
    rw [splitBeforeChar, if_neg (h x (by simp)), ih (fun y hy => h y (by simp [hy]))]

theorem sbc_found (c : Char) :
    ∀ (a b : Str), (∀ x ∈ a, ¬x = c) →
      splitBeforeChar c (a ++ c :: b) = (a, c :: b) := by
  intro a
  induction a with
  | nil => intro b _; simp [splitBeforeChar]
  | cons x xs ih =>
    intro b h
    rw [List.cons_append, splitBeforeChar, if_neg (h x (by simp)),
      ih b (fun y hy => h y (by simp [hy]))]

theorem sbc_snd_shape (c : Char) :
    ∀ (s : Str), (splitBeforeChar c s).2 = [] ∨ ∃ b, (splitBeforeChar c s).2 = c :: b := by
  intro s
  induction s with
  | nil => exact Or.inl rfl
  | cons x xs ih =>
    rw [splitBeforeChar]
    by_cases h : x = c
    · rw [if_pos h]
      exact Or.inr ⟨xs, by rw [h]⟩
    · rw [if_neg h]
      exact ih

theorem splitChar_ne_nil (c : Char) : ∀ (l : Str), splitChar c l ≠ [] := by
  intro l
  cases l with
  | nil => simp [splitChar]
  | cons x xs =>
    rw [splitChar]
    by_cases h : x = c
    · simp [h]
    · rw [if_neg h]
      cases hs : splitChar c xs <;> simp

theorem splitChar_no_sep (c : Char) :
    ∀ (l : Str), (∀ x ∈ l, ¬x = c) → splitChar c l = [l] := by
  intro l
  induction l with
  | nil => intro _; rfl
  | cons x xs ih =>
    intro h
    rw [splitChar, if_neg (h x (by simp)), ih (fun y hy => h y (by simp [hy]))]

theorem splitChar_cons_no_sep (c : Char) :
    ∀ (a : Str), (∀ x ∈ a, ¬x = c) →
      ∀ (l h0 : Str) (t : List Str), splitChar c l = h0 :: t →
        splitChar c (a ++ l) = (a ++ h0) :: t := by
  intro a
  induction a with
  | nil => intro _ l h0 t h; simpa using h
  | cons x xs ih =>
    intro ha l h0 t h
    rw [List.cons_append, splitChar, if_neg (ha x (by simp)),
      ih (fun y hy => ha y (by simp [hy])) l h0 t h]
    rfl

theorem joinWith_cons₂ (sep p q : Str) (qs : List Str) :
    joinWith sep (p :: q :: qs) = p ++ sep ++ joinWith sep (q :: qs) := by
  simp [joinWith, List.intersperse]

theorem joinWith_cons_head (sep : Str) (x : Char) (p : Str) (more : List Str) :
    joinWith sep ((x :: p) :: more) = x :: joinWith sep (p :: more) := by
  cases more with
  | nil => simp [joinWith, List.intersperse]
  | cons q qs => simp [joinWith, List.intersperse]

theorem splitChar_join (c : Char) : ∀ (l : Str), joinWith [c] (splitChar c l) = l := by
  intro l
  induction l with
  | nil => rfl
  | cons x xs ih =>
    rw [splitChar]
    by_cases h : x = c
    · rw [if_pos h]
      cases hs : splitChar c xs with
      | nil => exact absurd hs (splitChar_ne_nil c xs)
      | cons p more =>
        rw [joinWith_cons₂, ← hs, ih, h]
        rfl
    · rw [if_neg h]
      cases hs : splitChar c xs with
      | nil => exact absurd hs (splitChar_ne_nil c xs)
      | cons p more =>
        rw [joinWith_cons_head, ← hs, ih]

theorem joinWith_mem_strHas (pat sep : Str) :
    ∀ (ps : List Str) (piece : Str), piece ∈ ps → strHas pat piece = true →
      strHas pat (joinWith sep ps) = true := by
  intro ps
  induction ps with
  | nil => intro piece h; simp at h
  | cons q qs ih =>
    intro piece hmem hh
    rcases List.mem_cons.mp hmem with rfl | hmem2
    · obtain ⟨r, hr⟩ := joinWith_cons sep piece qs
      rw [hr]
      exact strHas_append_left _ _ _ hh
    · cases qs with
      | nil => simp at hmem2
      | cons q2 qs2 =>
        rw [joinWith_cons₂]
        exact strHas_append_right _ _ _ (ih piece hmem2 hh)

theorem splitChar_transport (pat : Str) (c : Char) (l piece : Str)
    (hmem : piece ∈ splitChar c l) (hh : strHas pat piece = true) :
    strHas pat l = true := by
  have h := joinWith_mem_strHas pat [c] (splitChar c l) piece hmem hh
  rwa [splitChar_join] at h

theorem wordChar_not_special (c : Char) (h : wordChar c = true) :
    ¬c = ':' ∧ ¬c = '/' ∧ ¬c = '?' ∧ ¬c = '#' ∧ ¬c = '&' ∧ ¬c = '=' ∧
      pyIsSpace c = false := by
  refine ⟨?_, ?_, ?_, ?_, ?_, ?_, ?_⟩
  · rintro rfl; revert h; decide
  · rintro rfl; revert h; decide
  · rintro rfl; revert h; decide
  · rintro rfl; revert h; decide
  · rintro rfl; revert h; decide
  · rintro rfl; revert h; decide
  · cases hsp : pyIsSpace c with
    | false => rfl
    | true =>
      exfalso
      simp only [pyIsSpace, Bool.or_eq_true, decide_eq_true_eq] at hsp
      rcases hsp with ((((h1 | h2) | h3) | h4) | h5) | h6 <;>
        (subst_vars; revert h; decide)

theorem uss_snd_transport (pat s : Str)
    (h : strHas pat (urlSplitScheme s).2 = true) : strHas pat s = true := by
  rw [urlSplitScheme] at h
  rcases hsp : splitBeforeChar ':' s with ⟨a, r⟩
  have happ := sbc_append ':' s
  rw [hsp] at h happ
  rcases sbc_snd_shape ':' s with h0 | ⟨b, hb⟩
  · rw [hsp] at h0
    simp only at h0
    subst h0
    simpa using h
  · rw [hsp] at hb
    simp only at hb
    subst hb
    simp only at h
    split at h
    · simp only at h
      rw [← happ]
      exact strHas_append_right _ _ _ (strHas_cons_of _ _ _ h)
    · simpa using h

theorem netloc_fst_transport (pat r : Str)
    (h : strHas pat (splitNetloc r).1 = true) : strHas pat r = true := by
  rw [splitNetloc] at h
  split at h
  · simp only at h
    have h2 : strHas pat (r.drop 2) = true := by
      have he := List.takeWhile_append_dropWhile
        (fun c => (decide ¬(c = '/' ∨ c = '?' ∨ c = '#'))) (r.drop 2)
      calc strHas pat (r.drop 2)
          = strHas pat ((r.drop 2).takeWhile _ ++ (r.drop 2).dropWhile _) := by rw [he]
        _ = true := strHas_append_left _ _ _ h
    have h3 := strHas_append_right pat (r.take 2) (r.drop 2) h2
    rwa [List.take_append_drop] at h3
  · simp only at h
    rw [strHas] at h
    rw [(strStarts_nil_iff pat).mp h]
    exact strHas_nil_pat r

theorem netloc_snd_transport (pat r : Str)
    (h : strHas pat (splitNetloc r).2 = true) : strHas pat r = true := by
  rw [splitNetloc] at h
  split at h
  · simp only at h
    have h2 : strHas pat (r.drop 2) = true := by
      have he := List.takeWhile_append_dropWhile
        (fun c => (decide ¬(c = '/' ∨ c = '?' ∨ c = '#'))) (r.drop 2)
      calc strHas pat (r.drop 2)
          = strHas pat ((r.drop 2).takeWhile _ ++ (r.drop 2).dropWhile _) := by rw [he]
        _ = true := strHas_append_right _ _ _ h
    have h3 := strHas_append_right pat (r.take 2) (r.drop 2) h2
    rwa [List.take_append_drop] at h3
  · simpa using h

theorem frag_fst_transport (pat r : Str)
    (h : strHas pat (splitFrag r).1 = true) : strHas pat r = true := by
  rw [splitFrag] at h
  rcases hsp : splitBeforeChar '#' r with ⟨a, t⟩
  have happ := sbc_append '#' r
  rw [hsp] at h happ
  cases t with
  | nil =>
    simp only at h
    rw [← happ, List.append_nil]
    exact h
  | cons c0 f =>
    simp only at h
    rw [← happ]
    exact strHas_append_left _ _ _ h

theorem query_fst_transport (pat r : Str)
    (h : strHas pat (splitQuery r).1 = true) : strHas pat r = true := by
  rw [splitQuery] at h
  rcases hsp : splitBeforeChar '?' r with ⟨a, t⟩
  have happ := sbc_append '?' r
  rw [hsp] at h happ
  cases t with
  | nil =>
    simp only at h
    rw [← happ, List.append_nil]
    exact h
  | cons c0 q =>
    simp only at h
    rw [← happ]
    exact strHas_append_left _ _ _ h

theorem query_snd_transport (pat r : Str)
    (h : strHas pat (splitQuery r).2 = true) : strHas pat r = true := by
  rw [splitQuery] at h
  rcases hsp : splitBeforeChar '?' r with ⟨a, t⟩
  have happ := sbc_append '?' r
  rw [hsp] at h happ
  cases t with
  | nil =>
    simp only at h
    rw [strHas] at h
    rw [(strStarts_nil_iff pat).mp h]
    exact strHas_nil_pat r
  | cons c0 q =>
    simp only at h
    rw [← happ]
    exact strHas_append_right _ _ _ (strHas_cons_of _ _ _ h)

theorem urlparse_netloc_transport (pat s : Str)
    (h : strHas pat (urlparse s).netloc = true) : strHas pat s = true :=
  uss_snd_transport pat s (netloc_fst_transport pat _ h)

theorem urlparse_path_transport (pat s : Str)
    (h : strHas pat (urlparse s).path = true) : strHas pat s = true :=
  uss_snd_transport pat s (netloc_snd_transport pat _
    (frag_fst_transport pat _ (query_fst_transport pat _ h)))

theorem urlparse_query_transport (pat s : Str)
    (h : strHas pat (urlparse s).query = true) : strHas pat s = true :=
  uss_snd_transport pat s (netloc_snd_transport pat _
    (frag_fst_transport pat _ (query_snd_transport pat _ h)))

theorem getQsV_strHas (q v : Str) (h : getQsV q = some v) :
    strHas (pystr ("v=")) q = true := by
  rw [getQsV] at h
  cases hl : ((qsPairs q).filter (fun p => p.1 = pystr ("v"))) with
  | nil => rw [hl] at h; simp at h
  | cons pr prs =>
    rw [hl] at h
    have hpr : pr ∈ (qsPairs q).filter (fun p => p.1 = pystr ("v")) := by
      rw [hl]; simp
    rw [List.mem_filter] at hpr
    obtain ⟨hmem, hkey⟩ := hpr
    rw [decide_eq_true_eq] at hkey
    rw [qsPairs, List.mem_filterMap] at hmem
    obtain ⟨pair, hpmem, hpf⟩ := hmem
    have hne : ¬pair = [] := by
      intro hnil
      rw [if_pos hnil] at hpf
      exact absurd hpf (by simp)
    rw [if_neg hne] at hpf
    rcases hsp : splitBeforeChar '=' pair with ⟨name, t⟩
    have happ := sbc_append '=' pair
    rw [hsp] at hpf happ
    rcases sbc_snd_shape '=' pair with h0 | ⟨b, hb⟩
    · rw [hsp] at h0
      simp only at h0
      subst h0
      simp at hpf
    · rw [hsp] at hb
      simp only at hb
      subst hb
      simp only at hpf
      split at hpf
      · rw [Option.some.injEq] at hpf
        have hname : name = pystr ("v") := by
          rw [← hpf] at hkey
          exact hkey
        have hstart : strStarts (pystr ("v=")) pair = true := by
          rw [← happ, hname]
          exact strStarts_self_append (pystr ("v=")) b
        exact splitChar_transport _ '&' q pair hpmem (strHas_of_starts _ _ hstart)
      · exact absurd hpf (by simp)

theorem tryPat_none_of (pat t : Str) (h : strStarts pat t = false) :
    tryPat pat t = none := by
  rw [tryPat, if_neg]
  simp [h]

theorem reSearchVID_none (s : Str) (hv : strHas (pystr ("v=")) s = false)
    (hy : strHas (pystr ("youtu")) s = false)
    (hs : strHas (pystr ("shorts/")) s = false) : reSearchVID s = none := by
  induction s with
  | nil => rfl
  | cons c rest ih =>
    rw [strHas, Bool.or_eq_false_iff] at hv hy hs
    have hyb : strStarts (pystr ("youtu.be/")) (c :: rest) = false := by
      cases hb : strStarts (pystr ("youtu.be/")) (c :: rest) with
      | false => rfl
      | true =>
        exfalso
        have := strStarts_drop_pat (pystr ("youtu")) (pystr (".be/")) (c :: rest)
          (by rw [show pystr ("youtu") ++ pystr (".be/") = pystr ("youtu.be/") from rfl]
              exact hb)
        rw [hy.1] at this
        exact Bool.false_ne_true this
    rw [reSearchVID, tryPat_none_of _ _ hv.1, tryPat_none_of _ _ hyb,
      tryPat_none_of _ _ hs.1]
    exact ih hv.2 hy.2 hs.2

theorem extract_video_id_none (s : Str) (hv : strHas (pystr ("v=")) s = false)
    (hy : strHas (pystr ("youtu")) s = false)
    (hs : strHas (pystr ("shorts/")) s = false) : extract_video_id s = none := by
  rw [extract_video_id]
  by_cases h0 : s = []
  · rw [if_pos h0]
  · rw [if_neg h0]
    cases he : strEnds (pystr ("youtu.be")) (urlparse s).netloc with
    | true =>
      exfalso
      have h1 := strEnds_strHas _ _ he
      have h2 := strHas_pat_append (pystr ("youtu")) (pystr (".be")) _
        (by rw [show pystr ("youtu") ++ pystr (".be") = pystr ("youtu.be") from rfl]
            exact h1)
      have h3 := urlparse_netloc_transport _ _ h2
      rw [hy] at h3
      exact Bool.false_ne_true h3
    | false =>
      rw [if_neg (by simp [he])]
      cases hc : strHas (pystr ("youtube.com")) (urlparse s).netloc with
      | true =>
        exfalso
        have h2 := strHas_pat_append (pystr ("youtu")) (pystr ("be.com")) _
          (by rw [show pystr ("youtu") ++ pystr ("be.com") = pystr ("youtube.com") from rfl]
              exact hc)
        have h3 := urlparse_netloc_transport _ _ h2
        rw [hy] at h3
        exact Bool.false_ne_true h3
      | false =>
        rw [if_neg (by simp [hc])]
        exact reSearchVID_none s hv hy hs

theorem dropWhile_all_false (p : Char → Bool) :
    ∀ (l : Str), (∀ x ∈ l, p x = false) → l.dropWhile p = l := by
  intro l
  induction l with
  | nil => intro _; rfl
  | cons x xs _ =>
    intro h
    rw [List.dropWhile_cons, if_neg]
    rw [h x (by simp)]
    simp

theorem pyStrip_all_word (id : Str) (hw : ∀ c ∈ id, wordChar c = true) :
    pyStrip id = id := by
  have hns : ∀ c ∈ id, pyIsSpace c = false := fun c hc =>
    (wordChar_not_special c (hw c hc)).2.2.2.2.2.2
  rw [pyStrip, pyLStrip, dropWhile_all_false _ _ hns, pyRStrip,
    dropWhile_all_false _ _ (fun c hc => hns c (List.mem_reverse.mp hc)),
    List.reverse_reverse]

theorem qsPairs_v_id (id : Str) (h11 : id.length = 11)
    (hw : ∀ c ∈ id, wordChar c = true) :
    qsPairs (pystr ("v=") ++ id) = [(pystr ("v"), id)] := by
  have hne : id ≠ [] := by
    intro hnil
    rw [hnil] at h11
    simp at h11
  rw [qsPairs]
  rw [splitChar_no_sep '&' _ (by
    intro x hx
    rcases List.mem_append.mp hx with h | h
    · exact (by decide : ∀ x ∈ pystr ("v="), ¬x = '&') x h
    · exact (wordChar_not_special x (hw x h)).2.2.2.2.1)]
  simp only [List.filterMap_cons, List.filterMap_nil]
  rw [if_neg (List.append_ne_nil_of_left_ne_nil
    (show pystr ("v=") ≠ [] by decide) id)]
  rw [show splitBeforeChar '=' (pystr ("v=") ++ id) = (pystr ("v"), '=' :: id) from rfl]
  simp [hne]

theorem getQsV_v_id (id : Str) (h11 : id.length = 11)
    (hw : ∀ c ∈ id, wordChar c = true) :
    getQsV (pystr ("v=") ++ id) = some id := by
  rw [getQsV, qsPairs_v_id id h11 hw]
  simp

theorem extract_watch_url (id : Str) (h11 : id.length = 11)
    (hw : ∀ c ∈ id, wordChar c = true) :
    extract_video_id (pystr ("https://www.youtube.com/watch?v=") ++ id) = some id := by
  have s1 : urlSplitScheme (pystr ("https://www.youtube.com/watch?v=") ++ id) =
      (pystr ("https"), pystr ("//www.youtube.com/watch?v=") ++ id) := rfl
  have s2 : splitNetloc (pystr ("//www.youtube.com/watch?v=") ++ id) =
      (pystr ("www.youtube.com"), pystr ("/watch?v=") ++ id) := rfl
  have s3 : splitFrag (pystr ("/watch?v=") ++ id) = (pystr ("/watch?v=") ++ id, []) := by
    rw [splitFrag, sbc_not_mem '#' _ (by
      intro x hx
      rcases List.mem_append.mp hx with h | h
      · exact (by decide : ∀ x ∈ pystr ("/watch?v="), ¬x = '#') x h
      · exact (wordChar_not_special x (hw x h)).2.2.2.1)]
  have s4 : splitQuery (pystr ("/watch?v=") ++ id) =
      (pystr ("/watch"), pystr ("v=") ++ id) := by
    rw [splitQuery,
      show pystr ("/watch?v=") ++ id = pystr ("/watch") ++ '?' :: (pystr ("v=") ++ id)
        from rfl,
      sbc_found '?' (pystr ("/watch")) _ (by decide)]
  have e1 : urlparse (pystr ("https://www.youtube.com/watch?v=") ++ id) =
      ⟨pystr ("https"), pystr ("www.youtube.com"), pystr ("/watch"),
       pystr ("v=") ++ id, []⟩ := by
    simp only [urlparse, s1, s2, s3, s4]
  rw [extract_video_id,
    if_neg (List.append_ne_nil_of_left_ne_nil
      (show pystr ("https://www.youtube.com/watch?v=") ≠ [] by decide) id),
    e1]
  rw [if_neg (by decide :
    ¬strEnds (pystr ("youtu.be")) (pystr ("www.youtube.com")) = true)]
  rw [if_pos (by decide :
    strHas (pystr ("youtube.com")) (pystr ("www.youtube.com")) = true)]
  rw [getQsV_v_id id h11 hw]
  show some (id.take 11) = some id
  rw [show (11 : ℕ) = id.length from h11.symm, List.take_length]

theorem extract_shortlink_url (id : Str) (h11 : id.length = 11)
    (hw : ∀ c ∈ id, wordChar c = true) :
    extract_video_id (pystr ("https://youtu.be/") ++ id) = some id := by
  have hns : ∀ x ∈ id, ¬x = '/' := fun c hc =>
    (wordChar_not_special c (hw c hc)).2.1
  have s1 : urlSplitScheme (pystr ("https://youtu.be/") ++ id) =
      (pystr ("https"), pystr ("//youtu.be/") ++ id) := rfl
  have s2 : splitNetloc (pystr ("//youtu.be/") ++ id) =
      (pystr ("youtu.be"), '/' :: id) := rfl
  have s3 : splitFrag ('/' :: id) = ('/' :: id, []) := by
    rw [splitFrag, sbc_not_mem '#' _ (by
      intro x hx
      rcases List.mem_cons.mp hx with rfl | h
      · decide
      · exact (wordChar_not_special x (hw x h)).2.2.2.1)]
  have s4 : splitQuery ('/' :: id) = ('/' :: id, []) := by
    rw [splitQuery, sbc_not_mem '?' _ (by
      intro x hx
      rcases List.mem_cons.mp hx with rfl | h
      · decide
      · exact (wordChar_not_special x (hw x h)).2.2.1)]
  have e1 : urlparse (pystr ("https://youtu.be/") ++ id) =
      ⟨pystr ("https"), pystr ("youtu.be"), '/' :: id, [], []⟩ := by
    simp only [urlparse, s1, s2, s3, s4]
  rw [extract_video_id,
    if_neg (List.append_ne_nil_of_left_ne_nil
      (show pystr ("https://youtu.be/") ≠ [] by decide) id),
    e1]
  rw [if_pos (by decide : strEnds (pystr ("youtu.be")) (pystr ("youtu.be")) = true)]
  have hstrip : pyStripP (fun c => c = '/') ('/' :: id) = id := by
    rw [pyStripP]
    rw [show List.dropWhile (fun c => (decide (c = '/'))) ('/' :: id) =
        List.dropWhile (fun c => (decide (c = '/'))) id from by
      rw [List.dropWhile_cons]
      simp]
    rw [dropWhile_all_false _ id (fun c hc => by simp [hns c hc]),
      dropWhile_all_false _ id.reverse
        (fun c hc => by simp [hns c (List.mem_reverse.mp hc)]),
      List.reverse_reverse]
  rw [hstrip, splitChar_no_sep '/' id hns]
  show some (id.take 11) = some id
  rw [show (11 : ℕ) = id.length from h11.symm, List.take_length]

theorem extract_shorts_url (id : Str) (h11 : id.length = 11)
    (hw : ∀ c ∈ id, wordChar c = true) :
    extract_video_id (pystr ("https://www.youtube.com/shorts/") ++ id) = some id := by
  have hns : ∀ x ∈ id, ¬x = '/' := fun c hc =>
    (wordChar_not_special c (hw c hc)).2.1
  have s1 : urlSplitScheme (pystr ("https://www.youtube.com/shorts/") ++ id) =
      (pystr ("https"), pystr ("//www.youtube.com/shorts/") ++ id) := rfl
  have s2 : splitNetloc (pystr ("//www.youtube.com/shorts/") ++ id) =
      (pystr ("www.youtube.com"), pystr ("/shorts/") ++ id) := rfl
  have s3 : splitFrag (pystr ("/shorts/") ++ id) = (pystr ("/shorts/") ++ id, []) := by
    rw [splitFrag, sbc_not_mem '#' _ (by
      intro x hx
      rcases List.mem_append.mp hx with h | h
      · exact (by decide : ∀ x ∈ pystr ("/shorts/"), ¬x = '#') x h
      · exact (wordChar_not_special x (hw x h)).2.2.2.1)]
  have s4 : splitQuery (pystr ("/shorts/") ++ id) = (pystr ("/shorts/") ++ id, []) := by
    rw [splitQuery, sbc_not_mem '?' _ (by
      intro x hx
      rcases List.mem_append.mp hx with h | h
      · exact (by decide : ∀ x ∈ pystr ("/shorts/"), ¬x = '?') x h
      · exact (wordChar_not_special x (hw x h)).2.2.1)]
  have e1 : urlparse (pystr ("https://www.youtube.com/shorts/") ++ id) =
      ⟨pystr ("https"), pystr ("www.youtube.com"), pystr ("/shorts/") ++ id, [], []⟩ := by
    simp only [urlparse, s1, s2, s3, s4]
  have hsc : splitChar '/' (pystr ("/shorts/") ++ id) = [[], pystr ("shorts"), id] := by
    rw [show pystr ("/shorts/") ++ id = '/' :: (pystr ("shorts") ++ ('/' :: id)) from rfl]
    rw [show splitChar '/' ('/' :: (pystr ("shorts") ++ ('/' :: id))) =
        [] :: splitChar '/' (pystr ("shorts") ++ ('/' :: id)) from by
      rw [splitChar]
      simp]
    rw [splitChar_cons_no_sep '/' (pystr ("shorts")) (by decide) ('/' :: id) [] [id]
      (by rw [splitChar]
          simp [splitChar_no_sep '/' id hns])]
    simp
  rw [extract_video_id,
    if_neg (List.append_ne_nil_of_left_ne_nil
      (show pystr ("https://www.youtube.com/shorts/") ≠ [] by decide) id),
    e1]
  rw [if_neg (by decide :
    ¬strEnds (pystr ("youtu.be")) (pystr ("www.youtube.com")) = true)]
  rw [if_pos (by decide :
    strHas (pystr ("youtube.com")) (pystr ("www.youtube.com")) = true)]
  rw [show getQsV [] = none from rfl]
  rw [if_pos (strStarts_self_append (pystr ("/shorts/")) id), hsc]
  show some (id.take 11) = some id
  rw [show (11 : ℕ) = id.length from h11.symm, List.take_length]

theorem extract_normalized_bare_id (id : Str) (h11 : id.length = 11)
    (hw : ∀ c ∈ id, wordChar c = true) :
    extract_video_id (_normalize_url id) = some id := by
  have hstrip : pyStrip id = id := pyStrip_all_word id hw
  have hne : id ≠ [] := by
    intro hnil
    rw [hnil] at h11
    simp at h11
  have hnorm : _normalize_url id = pystr ("https://www.youtube.com/watch?v=") ++ id := by
    rw [_normalize_url, hstrip, if_neg hne,
      if_pos ⟨h11, List.all_eq_true.mpr hw⟩]
  rw [hnorm]
  exact extract_watch_url id h11 hw

/-- Claim C1 (amended): for every 11-character `[\w-]` id, all four valid
reference forms — watch URL, youtu.be short link, shorts URL, and bare id
(through `_normalize_url`) — extract the identical id; and every input
containing none of the id markers (`v=`, `youtu`, `shorts/`) extracts
nothing.  The original claim's "for every malformed input it returns none"
is refuted by `extract_video_id_malformed_counterexample`: the regex fallback
accepts marker-bearing garbage such as `"v=abcdefghijk"`. -/
theorem extract_video_id_forms (id : Str) (h11 : id.length = 11)
    (hw : ∀ c ∈ id, wordChar c = true) (s : Str)
    (hv : strHas (pystr ("v=")) s = false)
    (hy : strHas (pystr ("youtu")) s = false)
    (hs : strHas (pystr ("shorts/")) s = false) :
    extract_video_id (pystr ("https://www.youtube.com/watch?v=") ++ id) = some id ∧
    extract_video_id (pystr ("https://youtu.be/") ++ id) = some id ∧
    extract_video_id (pystr ("https://www.youtube.com/shorts/") ++ id) = some id ∧
    extract_video_id (_normalize_url id) = some id ∧
    extract_video_id s = none :=
  ⟨extract_watch_url id h11 hw, extract_shortlink_url id h11 hw,
   extract_shorts_url id h11 hw, extract_normalized_bare_id id h11 hw,
   extract_video_id_none s hv hy hs⟩

/-- Witness for C1 at the id `dQw4w9WgXcQ` and the marker-free input
`"hello world"`. -/
theorem extract_video_id_forms_witness :
    extract_video_id (pystr ("https://www.youtube.com/watch?v=") ++
      pystr ("dQw4w9WgXcQ")) = some (pystr ("dQw4w9WgXcQ")) ∧
    extract_video_id (pystr ("https://youtu.be/") ++ pystr ("dQw4w9WgXcQ")) =
      some (pystr ("dQw4w9WgXcQ")) ∧
    extract_video_id (pystr ("https://www.youtube.com/shorts/") ++
      pystr ("dQw4w9WgXcQ")) = some (pystr ("dQw4w9WgXcQ")) ∧
    extract_video_id (_normalize_url (pystr ("dQw4w9WgXcQ"))) =
      some (pystr ("dQw4w9WgXcQ")) ∧
    extract_video_id (pystr ("hello world")) = none :=
  extract_video_id_forms (pystr ("dQw4w9WgXcQ")) (by decide) (by decide)
    (pystr ("hello world")) (by decide) (by decide) (by decide)

/-- Counterexample to claim C1 as stated: the input `"v=abcdefghijk"` is none
of the four valid reference forms (13 characters, not a YouTube host), yet
extraction succeeds via the regex fallback instead of failing. -/
theorem extract_video_id_malformed_counterexample :
    extract_video_id (pystr ("v=abcdefghijk")) = some (pystr ("abcdefghijk")) ∧
    (pystr ("v=abcdefghijk")).length ≠ 11 ∧
    strHas (pystr ("youtube.com")) (pystr ("v=abcdefghijk")) = false ∧
    strHas (pystr ("youtu.be")) (pystr ("v=abcdefghijk")) = false := by
  refine ⟨?_, by decide, by decide, by decide⟩
  decide

theorem build_qa_two_choices_counterexample :
    build_qa_core [((0 : ℚ), longChunk)]
        (fun txt prev => generate_questions (c3gen txt prev)) = [c3qa] ∧
    c3qa.choices.length < 3 := by
  exact ⟨rfl, by decide⟩

end WatchApp
